import Mathlib

/-!
# Packet-forward middleware: fee split and forwarding

A shallow embedding of `router/keeper/keeper.go` (`ForwardTransferPacket`,
`TransferDefaultTimeout`) together with the parts of the Cosmos SDK that the
keeper and the parser call (`sdk.Int`, `sdk.Dec`, `sdk.Coin`, the bech32
address codec, `fmt.Sprintf` as used by `sdkerrors.Wrapf`), and of the
receiver-field parser exercised by `router/parser/transfer_parser_test.go`.

Conventions
* `sdk.Int` wraps a `big.Int`: amounts are Lean `Int`; the SDK's range checks
  are explicit and a failed check is a Go panic, modelled by `Except Panic`.
* `sdk.Dec` is a `big.Int` scaled by `10^18`: `Dec.i` is the scaled integer.
* A Go `error` value is represented by its message (`err.Error()`).
* Collaborators (`FundCommunityPool`, `SendTransfer`) are fields of the keeper
  acting on an abstract store; every call is recorded in a trace.
-/

namespace PFM

/-! ## Cosmos SDK numeric layer -/

/-- Go panics that the keeper's arithmetic and coin construction can raise. -/
inductive Panic where
  | decOverflow                       -- Dec.Mul: "Int overflow"
  | intOutOfBound                     -- NewIntFromBigInt: out of bound
  | intOverflow                       -- Int.Sub: "Int overflow"
  | invalidDenom (denom : String)     -- NewCoin: ValidateDenom failed
  | negativeCoinAmount (amount : Int) -- NewCoin: negative coin amount
  | int64OutOfBound                   -- Int.Int64: "Int64() out of bound"
  deriving DecidableEq, Repr

/-- Number of decimal places of `sdk.Dec`. -/
def Precision : Nat := 18

/-- The scaling factor `10^Precision` of `sdk.Dec`. -/
def precisionReuse : Int := 1000000000000000000

/-- Half of the scaling factor, `5 * 10^(Precision-1)`. -/
def fivePrecision : Int := 500000000000000000

/-- Maximal bit length of an `sdk.Int`. -/
def maxBitLen : Nat := 255

/-- Bits needed for the decimal precision. -/
def DecimalPrecisionBits : Nat := 60

/-- Maximal bit length of the scaled integer of an `sdk.Dec`. -/
def maxDecBitLen : Nat := maxBitLen + DecimalPrecisionBits

/-- Number of binary digits of `n`, halving until zero; the first argument
bounds the number of halvings. -/
def bitLenAux : Nat → Nat → Nat
  | 0, _ => 0
  | fuel + 1, n => if n = 0 then 0 else bitLenAux fuel (n / 2) + 1

/-- Bit length of the absolute value (`big.Int.BitLen`). -/
def bitLen (x : Int) : Nat := bitLenAux x.natAbs x.natAbs

deriving instance DecidableEq for Except

/-- The scaled representation of `sdk.Dec`. -/
structure Dec where
  i : Int
  deriving DecidableEq, Repr

/-- The body of `chopPrecisionAndRound` on a non-negative operand: truncated
quotient and remainder by `10^18`, then round to nearest, ties to even. -/
def chopNonneg (d : Int) : Int :=
  let quo := d / 1000000000000000000
  let rem := d % 1000000000000000000
  if rem = 0 then quo
  else if rem < fivePrecision then quo
  else if rem > fivePrecision then quo + 1
  else if quo % 2 = 0 then quo   -- quo.Bit(0) == 0
  else quo + 1

/-- Remove `Precision` digits with banker's rounding; a negative operand is
negated, chopped and negated back. -/
def chopPrecisionAndRound (d : Int) : Int :=
  if d < 0 then -(chopNonneg (-d)) else chopNonneg d

/-- The method `Int.ToDec`: the amount scaled by `10^18`. -/
def IntToDec (a : Int) : Dec := ⟨a * precisionReuse⟩

/-- The method `Dec.Mul`: multiply, chop with rounding, check the range. -/
def DecMul (d d2 : Dec) : Except Panic Dec :=
  let chopped := chopPrecisionAndRound (d.i * d2.i)
  if bitLen chopped > maxDecBitLen then .error .decOverflow else .ok ⟨chopped⟩

/-- The constructor `NewIntFromBigInt`. -/
def NewIntFromBigInt (i : Int) : Except Panic Int :=
  if bitLen i > maxBitLen then .error .intOutOfBound else .ok i

/-- The method `Dec.RoundInt`. -/
def DecRoundInt (d : Dec) : Except Panic Int :=
  NewIntFromBigInt (chopPrecisionAndRound d.i)

/-- The method `Int.Sub`. -/
def IntSub (i i2 : Int) : Except Panic Int :=
  let res := i - i2
  if bitLen res > maxBitLen then .error .intOverflow else .ok res

/-- The method `Int.IsPositive`. -/
def IntIsPositive (i : Int) : Bool := decide (0 < i)

/-- The method `Int.Int64`: panics outside the `int64` range. -/
def IntInt64 (i : Int) : Except Panic Int :=
  if -9223372036854775808 ≤ i ∧ i ≤ 9223372036854775807 then .ok i
  else .error .int64OutOfBound

/-- A coin: denomination and amount. -/
structure Coin where
  Denom : String
  Amount : Int
  deriving DecidableEq, Repr

/-- Characters allowed after the first one in a denomination. -/
def isDenomTail (c : Char) : Bool :=
  c.isAlphanum || c == '/' || c == ':' || c == '.' || c == '_' || c == '-'

/-- The check `ValidateDenom`: the pattern `[a-zA-Z][a-zA-Z0-9/:._-]{2,127}`. -/
def ValidateDenom (denom : String) : Bool :=
  match denom.data with
  | [] => false
  | c :: cs => c.isAlpha && decide (2 ≤ cs.length) && decide (cs.length ≤ 127)
      && cs.all isDenomTail

/-- The constructor `NewCoin`: panics when `Coin.Validate` fails. -/
def NewCoin (denom : String) (amount : Int) : Except Panic Coin :=
  if ValidateDenom denom = false then .error (.invalidDenom denom)
  else if amount < 0 then .error (.negativeCoinAmount amount)
  else .ok ⟨denom, amount⟩

/-! ## Keeper -/

/-- The values bound by the first four statements of `ForwardTransferPacket`. -/
structure Split where
  feeAmount : Int
  packetAmount : Int
  feeCoins : List Coin
  packetCoin : Coin
  deriving DecidableEq, Repr

/-- The first two statements of `ForwardTransferPacket`: the fee amount is the
token amount times the fee percentage, rounded; the packet amount is the rest. -/
def splitAmounts (feePercentage : Dec) (amount : Int) : Except Panic (Int × Int) := do
  let product ← DecMul (IntToDec amount) feePercentage
  let feeAmount ← DecRoundInt product
  let packetAmount ← IntSub amount feeAmount
  pure (feeAmount, packetAmount)

/-- The first four statements of `ForwardTransferPacket`: fee amount, packet
amount, fee coins and packet coin, for the fee percentage read from the
parameters. -/
def splitToken (feePercentage : Dec) (token : Coin) : Except Panic Split := do
  let amounts ← splitAmounts feePercentage token.Amount
  let feeCoin ← NewCoin token.Denom amounts.1
  let packetCoin ← NewCoin token.Denom amounts.2
  pure ⟨amounts.1, amounts.2, [feeCoin], packetCoin⟩

/-- The first statement of `ForwardTransferPacket` alone: the fee amount
`token.Amount.ToDec().Mul(feePercentage).RoundInt()`. -/
def feeAmountOf (feePercentage : Dec) (amount : Int) : Except Panic Int := do
  let product ← DecMul (IntToDec amount) feePercentage
  DecRoundInt product

/-- An account address (`sdk.AccAddress`): raw bytes. -/
abbrev AccAddress := List UInt8

/-- The result of parsing a receiver field (`parser.ParsedReceiver`). -/
structure ParsedReceiver where
  IsTransfer : Bool
  ReceiverAddress : AccAddress
  FinalDestination : String
  Port : String
  Channel : String
  deriving DecidableEq, Repr

/-- An IBC client height (`clienttypes.Height`). -/
structure Height where
  RevisionNumber : Nat
  RevisionHeight : Nat
  deriving DecidableEq, Repr

/-- A telemetry label (`metrics.Label`). -/
structure Label where
  Name : String
  Value : String
  deriving DecidableEq, Repr

/-- The execution context: block time in nanoseconds since the epoch and the
state the collaborators act on. -/
structure Context (σ : Type) where
  BlockTime : Int
  store : σ

/-- Thirty minutes (`30 * time.Minute`), in nanoseconds. -/
def thirtyMinutes : Int := 30 * 60 * 1000000000

/-- The function `TransferDefaultTimeout`: block time plus thirty minutes as
Unix nanoseconds, converted to `uint64` (reduction modulo `2^64`). -/
def TransferDefaultTimeout {σ : Type} (ctx : Context σ) : Nat :=
  ((ctx.BlockTime + thirtyMinutes) % 18446744073709551616).toNat

/-- Registered SDK errors used by the keeper. -/
inductive RegisteredError where
  | ErrInsufficientFunds
  deriving DecidableEq, Repr

/-- The value built by `sdkerrors.Wrapf parent format` when no operands follow
the format string. -/
structure WrappedError where
  parent : RegisteredError
  format : String
  deriving DecidableEq, Repr

/-- The call `sdkerrors.Wrapf err format` without operands. -/
def Wrapf (err : RegisteredError) (format : String) : WrappedError := ⟨err, format⟩

/-! ### `fmt.Sprintf` on a format string without operands

`sdkerrors.Wrapf err format` renders its description with `fmt.Sprintf format`.
The keeper passes the collaborator's message as the format string and no
operands, so the formatting directives of `fmt` apply to the message text.
The functions below follow `doPrintf` of package `fmt` for an empty operand
list, on the characters of the format string. -/

/-- The flag characters of a formatting directive. -/
def isFlag (c : Char) : Bool :=
  c == '#' || c == '0' || c == '+' || c == '-' || c == ' '

/-- The bound `tooLarge` of `fmt`: numbers above a million are refused. -/
def tooLarge (x : Nat) : Bool := decide (x > 1000000)

/-- The digit loop of `parsenum`: `none` when the number grows too large,
otherwise the number, whether a digit was read, and the unread characters. -/
def parsenumAux : List Char → Nat → Bool → Option (Nat × Bool × List Char)
  | [], num, isnum => some (num, isnum, [])
  | c :: cs, num, isnum =>
    if c.isDigit then
      if tooLarge num then none
      else parsenumAux cs (num * 10 + (c.toNat - '0'.toNat)) true
    else some (num, isnum, c :: cs)

/-- The function `parsenum` on the window it is given: the number, whether it
is a number, and the unread part of the window (nothing on overflow, where the
whole window counts as read). -/
def parsenum (window : List Char) : Nat × Bool × List Char :=
  match parsenumAux window 0 false with
  | none => (0, false, [])
  | some r => r

/-- The function `parseArgNumber` on a text starting with `[`, given without
that first character: whether `[n]` was read, and what follows the characters
consumed (one character when there is no closing bracket or fewer than three
characters in all, otherwise everything up to the first `]`). -/
def parseArgNumber (afterBracket : List Char) : Bool × List Char :=
  if afterBracket.length + 1 < 3 then (false, afterBracket)
  else
    match afterBracket.dropWhile (fun c => c != ']') with
    | [] => (false, afterBracket)
    | _ :: following =>
      let r := parsenum (afterBracket.takeWhile (fun c => c != ']'))
      (r.2.1 && r.2.2.isEmpty, following)

/-- The method `argNumber` with no operands: without a leading `[` nothing
changes; otherwise the index can never be in range, so the argument number is
marked bad. The result is the rest, whether an index was found, and whether
the argument number is still good. -/
def argNumber (format : List Char) (goodArgNum : Bool) : List Char × Bool × Bool :=
  match format with
  | '[' :: afterBracket =>
    let r := parseArgNumber afterBracket
    (r.2, r.1, false)
  | _ => (format, false, goodArgNum)

/-- The width of a directive, after the argument index `a2` (rest, index
found, argument number good): a `*` has no operand to read and writes
`%!(BADWIDTH)`; otherwise a number is read, and a width after an index marks
the argument number bad. The result is the text written, the rest, whether an
index was just read, and whether the argument number is good. -/
def widthStep (a2 : List Char × Bool × Bool) : List Char × List Char × Bool × Bool :=
  match a2.1 with
  | '*' :: rest => ("%!(BADWIDTH)".data, rest, false, a2.2.2)
  | l =>
    let r := parsenum l
    ([], r.2.2, a2.2.1, a2.2.2 && !(a2.2.1 && r.2.1))

/-- The precision of a directive, after the width `w`: present when a `.`
follows; a `*` has no operand to read and writes `%!(BADPREC)`. -/
def precisionStep (w : List Char × List Char × Bool × Bool) :
    List Char × List Char × Bool × Bool :=
  match w.2.1 with
  | '.' :: rest =>
    let a4 := argNumber rest (w.2.2.2 && !w.2.2.1)
    match a4.1 with
    | '*' :: rest2 => ("%!(BADPREC)".data, rest2, false, a4.2.2)
    | l => ([], (parsenum l).2.2, a4.2.1, a4.2.2)
  | l => ([], l, w.2.2.1, w.2.2.2)

/-- The argument index read before the verb when none was just read. -/
def indexStep (pr : List Char × List Char × Bool × Bool) : List Char × Bool × Bool :=
  if pr.2.2.1 then (pr.2.1, true, pr.2.2.2) else argNumber pr.2.1 pr.2.2.2

/-- The verb of a directive: at the end of the format `%!(NOVERB)` is written
and the loop stops; `%` writes a percent sign; any other verb has no operand
and writes `%!verb(BADINDEX)` or `%!verb(MISSING)`. -/
def verbOut (written : List Char) (a5 : List Char × Bool × Bool) :
    List Char × Option (List Char) :=
  match a5.1 with
  | [] => (written ++ "%!(NOVERB)".data, none)
  | verb :: rest =>
    if verb == '%' then (written ++ ['%'], some rest)
    else if !a5.2.2 then (written ++ "%!".data ++ [verb] ++ "(BADINDEX)".data, some rest)
    else (written ++ "%!".data ++ [verb] ++ "(MISSING)".data, some rest)

/-- One formatting directive, given the text after its `%`: flags, argument
index, width, precision, argument index, verb. The result is the output it
writes and the text that follows it, or `none` when the format ends before a
verb (the loop stops there). -/
def verbStep (cs : List Char) : List Char × Option (List Char) :=
  let a2 := argNumber (cs.dropWhile isFlag) true
  let w := widthStep a2
  let pr := precisionStep w
  verbOut (w.1 ++ pr.1) (indexStep pr)

/-- The loop of `doPrintf` with no operands: text up to the next `%` is copied,
then one directive is processed. The first argument bounds the number of
iterations; each iteration reads at least one character. -/
def doPrintfAux : Nat → List Char → List Char
  | 0, _ => []
  | _ + 1, [] => []
  | fuel + 1, c :: cs =>
    if c != '%' then c :: doPrintfAux fuel cs
    else
      match verbStep cs with
      | (out, none) => out
      | (out, some rest) => out ++ doPrintfAux fuel rest

/-- The call `fmt.Sprintf format` without operands. -/
def Sprintf (format : String) : String :=
  String.mk (doPrintfAux format.data.length format.data)

/-- The message of a registered error. -/
def RegisteredError.Error : RegisteredError → String
  | .ErrInsufficientFunds => "insufficient funds"

/-- The message of a wrapped error: the rendered description, a colon, and the
message of the parent. -/
def WrappedError.Error (e : WrappedError) : String :=
  Sprintf e.format ++ ": " ++ e.parent.Error

/-- A call made to a collaborator, with its arguments. -/
inductive Call where
  | FundCommunityPool (amount : List Coin) (sender : AccAddress)
  | SendTransfer (sourcePort sourceChannel : String) (token : Coin)
      (sender : AccAddress) (receiver : String) (timeoutHeight : Height)
      (timeoutTimestamp : Nat)
  deriving DecidableEq, Repr

/-- The conversion `float32(v)` of an `int64` value: the nearest number with a
24-bit significand, ties going to the even significand. The result is always
a whole number, so it is given as an integer; every `int64` is within the
range of `float32`. -/
def float32OfInt64 (v : Int) : Int :=
  if bitLen v ≤ 24 then v
  else
    let e := bitLen v - 24
    let q := v.natAbs / 2 ^ e
    let r := v.natAbs % 2 ^ e
    let half := 2 ^ (e - 1)
    let rounded : Nat :=
      if r > half then q + 1
      else if r = half ∧ q % 2 = 1 then q + 1
      else q
    if v < 0 then -((rounded * 2 ^ e : Nat) : Int) else ((rounded * 2 ^ e : Nat) : Int)

/-- A telemetry emission; the value of a gauge is a `float32`, given by the
whole number it represents. -/
inductive Metric where
  | SetGaugeWithLabels (keys : List String) (val : Int) (labels : List Label)
  | IncrCounterWithLabels (keys : List String) (val : Int) (labels : List Label)
  deriving DecidableEq, Repr

/-- The keeper with its collaborators. A collaborator returns the new store and
`none` for a nil error or `some msg` for an error with message `msg`.
`GetFeePercentage` reads the fee-percentage parameter and `ModuleName` is the
module-name constant; both are declared outside the embedded sources. -/
structure Keeper (σ : Type) where
  GetFeePercentage : Context σ → Dec
  ModuleName : String
  FundCommunityPool : Context σ → List Coin → AccAddress → σ × Option String
  SendTransfer : Context σ → String → String → Coin → AccAddress → String →
    Height → Nat → σ × Option String

/-- How a call of `ForwardTransferPacket` ends. -/
inductive Outcome where
  | nil                        -- returns a nil error
  | error (e : WrappedError)   -- returns an error
  | panic (p : Panic)          -- panics
  deriving DecidableEq, Repr

/-- Everything observable about one call: final store, collaborator calls in
order, telemetry in order, and how it ended. -/
structure Run (σ : Type) where
  store : σ
  calls : List Call
  metrics : List Metric
  outcome : Outcome

/-- The label name `coretypes.LabelDenom`. -/
def LabelDenom : String := "denom"

/-- Whether a call is a `SendTransfer` call. -/
def Call.isSendTransfer : Call → Bool
  | .SendTransfer _ _ _ _ _ _ _ => true
  | .FundCommunityPool _ _ => false

/-- Whether a call is a `FundCommunityPool` call. -/
def Call.isFundCommunityPool : Call → Bool
  | .FundCommunityPool _ _ => true
  | .SendTransfer _ _ _ _ _ _ _ => false

/-- Carrying out a call: the collaborator it names is applied to its arguments
in the given context. -/
def Keeper.perform {σ : Type} (k : Keeper σ) (ctx : Context σ) : Call → σ × Option String
  | .FundCommunityPool amount sender => k.FundCommunityPool ctx amount sender
  | .SendTransfer sourcePort sourceChannel token sender receiver timeoutHeight
      timeoutTimestamp =>
    k.SendTransfer ctx sourcePort sourceChannel token sender receiver timeoutHeight
      timeoutTimestamp

/-- The fee-paying step of `ForwardTransferPacket`: the funder is called with
the fee coins and the receiver address when the fee amount is positive. The
result is the store, the calls made and the error of the call, if any. -/
def payFees {σ : Type} (k : Keeper σ) (ctx : Context σ)
    (parsedReceiver : ParsedReceiver) (s : Split) : σ × List Call × Option String :=
  if IntIsPositive s.feeAmount then
    let call := Call.FundCommunityPool s.feeCoins parsedReceiver.ReceiverAddress
    let r := k.perform ctx call
    (r.1, [call], r.2)
  else (ctx.store, [], none)

/-- The method `Keeper.ForwardTransferPacket`. -/
def ForwardTransferPacket {σ : Type} (k : Keeper σ) (ctx : Context σ)
    (parsedReceiver : ParsedReceiver) (token : Coin) (labels : List Label) : Run σ :=
  match splitToken (k.GetFeePercentage ctx) token with
  | .error p => ⟨ctx.store, [], [], .panic p⟩
  | .ok s =>
    -- pay fees
    match payFees k ctx parsedReceiver s with
    | (st, calls, some err) =>
      ⟨st, calls, [], .error (Wrapf .ErrInsufficientFunds err)⟩
    | (st, calls, none) =>
      -- send tokens to destination
      let ctx1 : Context σ := ⟨ctx.BlockTime, st⟩
      let call := Call.SendTransfer parsedReceiver.Port parsedReceiver.Channel
        s.packetCoin parsedReceiver.ReceiverAddress parsedReceiver.FinalDestination
        ⟨0, 0⟩ (TransferDefaultTimeout ctx1)
      let r := k.perform ctx1 call
      match r.2 with
      | some err =>
        ⟨r.1, calls ++ [call], [], .error (Wrapf .ErrInsufficientFunds err)⟩
      | none =>
        -- deferred telemetry
        match IntInt64 token.Amount with
        | .error p => ⟨r.1, calls ++ [call], [], .panic p⟩
        | .ok v =>
          ⟨r.1, calls ++ [call],
            [Metric.SetGaugeWithLabels ["tx", "msg", "ibc", "transfer"] (float32OfInt64 v)
               [⟨LabelDenom, token.Denom⟩],
             Metric.IncrCounterWithLabels ["ibc", k.ModuleName, "send"] 1 labels],
            .nil⟩

/-! ## Receiver-field parser -/

/-- Errors of the receiver-field parser, by kind, with their message. -/
inductive ParseError where
  | Unparsable (msg : String)
  | InvalidFormat (msg : String)
  | AddressDecodeError (msg : String)
  deriving DecidableEq, Repr

/-- The message of a parse error (`err.Error()`). -/
def ParseError.Error : ParseError → String
  | .Unparsable msg => msg
  | .InvalidFormat msg => msg
  | .AddressDecodeError msg => msg

/-- Modelled from the spec: the descriptor check of `ParseReceiverData`, whose
source file `router/parser` is not among the embedded sources. The descriptor
must read `port/channel:destination`, with exactly one `/` preceding exactly
one `:` and three non-empty components. -/
def parseDescriptor (d : List Char) : Option (List Char × List Char × List Char) :=
  let port := d.takeWhile (fun c => c != '/')
  let rest := (d.dropWhile (fun c => c != '/')).drop 1
  let channel := rest.takeWhile (fun c => c != ':')
  let destination := (rest.dropWhile (fun c => c != ':')).drop 1
  if d.count '/' = 1 ∧ d.count ':' = 1 ∧ ':' ∉ port
      ∧ port ≠ [] ∧ channel ≠ [] ∧ destination ≠ [] then
    some (port, channel, destination)
  else none

/-- Modelled from the spec: the function `ParseReceiverData` of `router/parser`,
whose source file is not among the embedded sources; only its test is. The
classification follows the specification's algorithm: count `|`, then either
split and validate, or classify by the number of `:`. The address codec is the
parameter `DecodeAddress`. -/
def ParseReceiverData (DecodeAddress : String → Except String AccAddress)
    (raw : String) : Except ParseError ParsedReceiver :=
  let pipes := raw.data.count '|'
  if pipes > 1 then
    .error (.Unparsable "malformed receiver: multiple separators")
  else if pipes = 1 then
    let addressPart := raw.data.takeWhile (fun c => c != '|')
    let descriptorPart := (raw.data.dropWhile (fun c => c != '|')).drop 1
    match DecodeAddress (String.mk addressPart) with
    | .error msg => .error (.AddressDecodeError msg)
    | .ok addr =>
      match parseDescriptor descriptorPart with
      | none =>
        .error (.InvalidFormat "formatting incorrect: expected port/channel:destination")
      | some (port, channel, destination) =>
        .ok ⟨true, addr, String.mk destination, String.mk port, String.mk channel⟩
  else if raw.data = [] then
    .error (.Unparsable "unparsable receiver: empty input")
  else
    let colons := raw.data.count ':'
    if colons = 0 then
      match DecodeAddress raw with
      | .error msg => .error (.AddressDecodeError msg)
      | .ok addr => .ok ⟨false, addr, "", "", ""⟩
    else if colons = 1 then
      .error (.InvalidFormat
        "formatting incorrect: missing separator before forwarding descriptor")
    else
      .error (.Unparsable "unparsable receiver: ambiguous input")

/-! ## The fee split in the specification's words -/

/-- The specification's rounding rule for the fee: `amount × ratio` rounded to a
whole unit with round-half-up, `floor (amount · ratio + 1/2)`, for a ratio
given by its scaled integer. -/
def roundHalfUp (feePercentage : Dec) (amount : Int) : Int :=
  (2 * (amount * feePercentage.i) + 1000000000000000000) / 2000000000000000000

/-- A string without any of the separators `|`, `/` and `:`. -/
def sepFree (s : String) : Prop := '|' ∉ s.data ∧ '/' ∉ s.data ∧ ':' ∉ s.data

/-- Whether a message begins with the given text, as the parser's test checks
(`err.Error()[:len(start)] == start`). -/
def startsWith (msg start : String) : Bool := start.data.isPrefixOf msg.data

/-- The descriptor grammar in the specification's words: the text reads
`port/channel:destination` with three non-empty components, exactly one `/`
and exactly one `:`, the `/` coming first. -/
def IsDescriptor (desc : String) : Prop :=
  ∃ p c d : String, p ≠ "" ∧ c ≠ "" ∧ d ≠ ""
    ∧ '/' ∉ p.data ∧ ':' ∉ p.data ∧ '/' ∉ c.data ∧ ':' ∉ c.data
    ∧ '/' ∉ d.data ∧ ':' ∉ d.data
    ∧ desc = p ++ "/" ++ c ++ ":" ++ d

/-! ## The address codec

The account-address codec of the SDK (`AccAddressFromBech32`, `AccAddress.String`)
with the bech32 functions it calls. Errors are not told apart: `none` stands for
any of them. -/

/-- The character set of bech32 data parts; a character stands for its position. -/
def charset : List Char := "qpzry9x8gf2tvdw0s3jn54khce6mua7l".data

/-- Position of the first occurrence of `c` (`strings.IndexByte`). -/
def indexByte : List Char → Char → Option Nat
  | [], _ => none
  | x :: xs, c => if x = c then some 0 else (indexByte xs c).map (· + 1)

/-- Position of the last occurrence of `c` (`strings.LastIndexByte`). -/
def lastIndexByte : List Char → Char → Option Nat
  | [], _ => none
  | x :: xs, c =>
    match lastIndexByte xs c with
    | some i => some (i + 1)
    | none => if x = c then some 0 else none

/-- The function `toBytes`: the positions of the characters in the character set. -/
def toBytes : List Char → Option (List Nat)
  | [] => some []
  | c :: cs =>
    match indexByte charset c, toBytes cs with
    | some v, some vs => some (v :: vs)
    | _, _ => none

/-- The function `toChars`: the characters at the given positions. -/
def toChars : List Nat → Option (List Char)
  | [] => some []
  | v :: vs =>
    match charset[v]?, toChars vs with
    | some c, some cs => some (c :: cs)
    | _, _ => none

/-- One round of `bech32Polymod`. -/
def polymodStep (chk v : Nat) : Nat :=
  let b := chk >>> 25
  let c := ((chk &&& 0x1ffffff) <<< 5) ^^^ v
  let c := if (b >>> 0) &&& 1 = 1 then c ^^^ 0x3b6a57b2 else c
  let c := if (b >>> 1) &&& 1 = 1 then c ^^^ 0x26508e6d else c
  let c := if (b >>> 2) &&& 1 = 1 then c ^^^ 0x1ea119fa else c
  let c := if (b >>> 3) &&& 1 = 1 then c ^^^ 0x3d4233dd else c
  if (b >>> 4) &&& 1 = 1 then c ^^^ 0x2a1462b3 else c

/-- The function `bech32Polymod`. -/
def bech32Polymod (values : List Nat) : Nat := values.foldl polymodStep 1

/-- The function `bech32HrpExpand`. -/
def bech32HrpExpand (hrp : List Char) : List Nat :=
  hrp.map (fun c => c.toNat >>> 5) ++ 0 :: hrp.map (fun c => c.toNat &&& 31)

/-- The function `bech32Checksum`. -/
def bech32Checksum (hrp : List Char) (data : List Nat) : List Nat :=
  let polymod := bech32Polymod (bech32HrpExpand hrp ++ data ++ [0, 0, 0, 0, 0, 0]) ^^^ 1
  [(polymod >>> 25) &&& 31, (polymod >>> 20) &&& 31, (polymod >>> 15) &&& 31,
   (polymod >>> 10) &&& 31, (polymod >>> 5) &&& 31, (polymod >>> 0) &&& 31]

/-- The function `bech32VerifyChecksum`. -/
def bech32VerifyChecksum (hrp : List Char) (data : List Nat) : Bool :=
  bech32Polymod (bech32HrpExpand hrp ++ data) == 1

/-- The function `bech32.Decode`: the human-readable part and the data without
the checksum; `none` stands for every error. -/
def bech32Decode (bech : List Char) (limit : Nat) : Option (List Char × List Nat) :=
  if bech.length < 8 ∨ bech.length > limit then none
  else if bech.any (fun c => c.toNat < 33 || c.toNat > 126) then none
  else
    let lower := bech.map Char.toLower
    let upper := bech.map Char.toUpper
    if bech ≠ lower ∧ bech ≠ upper then none
    else
      match lastIndexByte lower '1' with
      | none => none
      | some one =>
        if one < 1 ∨ one + 7 > lower.length then none
        else
          let hrp := lower.take one
          let data := lower.drop (one + 1)
          match toBytes data with
          | none => none
          | some decoded =>
            if bech32VerifyChecksum hrp decoded then
              some (hrp, decoded.take (decoded.length - 6))
            else none

/-- The function `bech32.Encode`. -/
def bech32Encode (hrp : List Char) (data : List Nat) : Option (List Char) :=
  match toChars (data ++ bech32Checksum hrp data) with
  | none => none
  | some dataChars => some (hrp ++ '1' :: dataChars)

/-- The state of `ConvertBits`: the finished groups, the group being filled and
the number of bits in it. -/
structure Regroup where
  regrouped : List Nat
  nextByte : Nat
  filledBits : Nat
  deriving DecidableEq, Repr

/-- The inner loop of `ConvertBits` for one input byte `b`, of which
`remFromBits` bits remain; bytes are kept modulo 256. The first argument
bounds the number of iterations, each of which takes one bit or more. -/
def extractBits (toBits : Nat) : Nat → Nat → Nat → Regroup → Regroup
  | 0, _, _, st => st
  | fuel + 1, b, remFromBits, st =>
    if remFromBits = 0 then st
    else
      let remToBits := toBits - st.filledBits
      let toExtract := if remToBits < remFromBits then remToBits else remFromBits
      let nextByte := ((st.nextByte <<< toExtract) % 256) ||| (b >>> (8 - toExtract))
      let b := (b <<< toExtract) % 256
      let filledBits := st.filledBits + toExtract
      if filledBits = toBits then
        extractBits toBits fuel b (remFromBits - toExtract) ⟨st.regrouped ++ [nextByte], 0, 0⟩
      else
        extractBits toBits fuel b (remFromBits - toExtract) ⟨st.regrouped, nextByte, filledBits⟩

/-- The function `ConvertBits`: regroup `fromBits`-bit values into `toBits`-bit
values, padding the last group when asked; `none` stands for every error. -/
def ConvertBits (data : List Nat) (fromBits toBits : Nat) (pad : Bool) : Option (List Nat) :=
  if fromBits < 1 ∨ fromBits > 8 ∨ toBits < 1 ∨ toBits > 8 then none
  else
    let st := data.foldl
      (fun st b => extractBits toBits fromBits ((b <<< (8 - fromBits)) % 256) fromBits st)
      (Regroup.mk [] 0 0)
    let st := if pad ∧ st.filledBits > 0 then
        Regroup.mk (st.regrouped ++ [(st.nextByte <<< (toBits - st.filledBits)) % 256]) 0 0
      else st
    if st.filledBits > 0 ∧ (st.filledBits > 4 ∨ st.nextByte ≠ 0) then none
    else some st.regrouped

/-- The function `bech32.DecodeAndConvert` of the SDK: decode with the length
limit 1023, then regroup the 5-bit values into bytes without padding. -/
def DecodeAndConvert (bech : List Char) : Option (List Char × List Nat) :=
  match bech32Decode bech 1023 with
  | none => none
  | some (hrp, data) =>
    match ConvertBits data 5 8 false with
    | none => none
    | some converted => some (hrp, converted)

/-- The function `bech32.ConvertAndEncode` of the SDK: regroup the bytes into
5-bit values with padding, then encode. -/
def ConvertAndEncode (hrp : List Char) (data : List Nat) : Option (List Char) :=
  match ConvertBits data 8 5 true with
  | none => none
  | some converted => bech32Encode hrp converted

/-- The function `GetFromBech32`: decode and compare the human-readable part
with the expected prefix. -/
def GetFromBech32 (bech32str : List Char) (pfx : List Char) : Option (List Nat) :=
  if bech32str.length = 0 then none
  else
    match DecodeAndConvert bech32str with
    | none => none
    | some (hrp, bz) => if hrp ≠ pfx then none else some bz

/-- White space in the sense of `unicode.IsSpace`. -/
def isSpace (c : Char) : Bool :=
  c == '\t' || c == '\n' || c.toNat == 11 || c.toNat == 12 || c == '\r' || c == ' '
  || c.toNat == 0x85 || c.toNat == 0xA0 || c.toNat == 0x1680
  || (0x2000 ≤ c.toNat && c.toNat ≤ 0x200a) || c.toNat == 0x2028 || c.toNat == 0x2029
  || c.toNat == 0x202f || c.toNat == 0x205f || c.toNat == 0x3000

/-- The function `sdk.AccAddressFromBech32` for the configured account prefix
`pfx`: a blank string is refused, the string is decoded, and the address must
have between 1 and 255 bytes (`VerifyAddressFormat`). `none` stands for every
error. -/
def AccAddressFromBech32 (pfx : String) (address : String) : Option AccAddress :=
  if address.data.all isSpace then none
  else
    match GetFromBech32 address.data pfx.data with
    | none => none
    | some bz =>
      if bz.length = 0 then none
      else if bz.length > 255 then none
      else some (bz.map Nat.toUInt8)

/-- The method `AccAddress.String` for the configured account prefix `pfx`: the
empty address has the empty string form, any other address is encoded;
`none` stands for the panic on an encoding error. -/
def AccAddressString (pfx : String) (aa : AccAddress) : Option String :=
  if aa.isEmpty then some ""
  else (ConvertAndEncode pfx.data (aa.map UInt8.toNat)).map String.mk

/-- The number written by a list of `w`-bit groups, most significant first. -/
def groupsValue (w : Nat) (l : List Nat) : Nat := l.foldl (fun acc x => acc * 2 ^ w + x) 0

/-- The checks made on one run of the inner loop of `ConvertBits`, from a state
with `f` bits `nb` and no finished group, on the input value `x`. -/
def stepCheck (toBits fromBits f nb x : Nat) : Bool :=
  match extractBits toBits fromBits ((x <<< (8 - fromBits)) % 256) fromBits ⟨[], nb, f⟩ with
  | ⟨rg, nb1, f1⟩ =>
    (groupsValue toBits rg * 2 ^ f1 + nb1 == nb * 2 ^ fromBits + x)
    && (toBits * rg.length + f1 == f + fromBits)
    && decide (nb1 < 2 ^ f1)
    && decide (f1 < toBits)
    && rg.all (fun o => decide (o < 2 ^ toBits))

/-- All runs of the inner loop pass the checks: every number `f` of bits already
in the group, every content `nb` of that many bits and every input value. -/
def stepCheckAll (toBits fromBits : Nat) : Bool :=
  (List.range toBits).all fun f =>
    (List.range (2 ^ f)).all fun nb =>
      (List.range (2 ^ fromBits)).all fun x => stepCheck toBits fromBits f nb x

/-- The invariant of `ConvertBits`: the finished groups followed by the bits of
the group being filled spell the number `n` in `len` bits. -/
def RegroupInv (toBits : Nat) (st : Regroup) (n len : Nat) : Prop :=
  groupsValue toBits st.regrouped * 2 ^ st.filledBits + st.nextByte = n
  ∧ toBits * st.regrouped.length + st.filledBits = len
  ∧ st.nextByte < 2 ^ st.filledBits
  ∧ st.filledBits < toBits
  ∧ ∀ o ∈ st.regrouped, o < 2 ^ toBits

/-- The address codec as the parser's `DecodeAddress`: the decoded address, or
an error whose message is given by `errorText` (the texts of the codec's error
messages are not modelled). -/
def decodeAddressWith (pfx : String) (errorText : String → String) (address : String) :
    Except String AccAddress :=
  match AccAddressFromBech32 pfx address with
  | some addr => .ok addr
  | none => .error (errorText address)

/-- The lower-case form of a string (`strings.ToLower` on ASCII text). -/
def toLower (s : String) : String := String.mk (s.data.map Char.toLower)

/-! ## Instances used to evaluate the definitions -/

/-- A keeper over a store counting successful collaborator calls, with a fixed
fee percentage and collaborators that fail on request. -/
def demoKeeper (fee : Dec) (fundFails sendFails : Bool) : Keeper Nat where
  GetFeePercentage := fun _ => fee
  ModuleName := "router"
  FundCommunityPool := fun ctx _ _ =>
    if fundFails then (ctx.store, some "fund failed") else (ctx.store + 1, none)
  SendTransfer := fun ctx _ _ _ _ _ _ _ =>
    if sendFails then (ctx.store, some "send failed") else (ctx.store + 1, none)

/-- A keeper over the counting store whose collaborators fail with the given
messages, when one is given. -/
def demoKeeperMsg (fee : Dec) (fundErr sendErr : Option String) : Keeper Nat where
  GetFeePercentage := fun _ => fee
  ModuleName := "router"
  FundCommunityPool := fun ctx _ _ =>
    match fundErr with
    | some msg => (ctx.store, some msg)
    | none => (ctx.store + 1, none)
  SendTransfer := fun ctx _ _ _ _ _ _ _ =>
    match sendErr with
    | some msg => (ctx.store, some msg)
    | none => (ctx.store + 1, none)

/-- A context at block time zero over the counting store. -/
def demoCtx : Context Nat := ⟨0, 0⟩

/-- A forwarding instruction used in the examples. -/
def demoReceiver : ParsedReceiver := ⟨true, [1, 2, 3], "dest", "transfer", "channel-0"⟩

/-- A toy address codec: the bytes of the characters, refusing strings that
contain a capital letter. -/
def demoDecode (s : String) : Except String AccAddress :=
  if s.data.any Char.isUpper then .error "decoding bech32 failed"
  else .ok (s.data.map (fun c => c.toNat.toUInt8))

end PFM

namespace PFM

/-! ## Arithmetic of the SDK layer -/

theorem bitLenAux_le_iff (fuel : Nat) : ∀ (n k : Nat), n ≤ fuel →
    (bitLenAux fuel n ≤ k ↔ n < 2 ^ k) := by
  induction fuel with
  | zero =>
    intro n k hn
    have h0 : n = 0 := by omega
    subst h0
    simp [bitLenAux]
  | succ fuel ih =>
    intro n k hn
    unfold bitLenAux
    by_cases h : n = 0
    · subst h; simp
    · simp only [h, if_false]
      cases k with
      | zero => simp; omega
      | succ k =>
        rw [Nat.succ_le_succ_iff, ih (n / 2) k (by omega), pow_succ]
        omega

theorem bitLen_le_iff (x : Int) (n : Nat) : bitLen x ≤ n ↔ x.natAbs < 2 ^ n :=
  bitLenAux_le_iff x.natAbs x.natAbs n (le_refl _)

theorem chopNonneg_mul (x : Int) : chopNonneg (x * 1000000000000000000) = x := by
  unfold chopNonneg
  simp

theorem chopPrecisionAndRound_mul (x : Int) :
    chopPrecisionAndRound (x * 1000000000000000000) = x := by
  unfold chopPrecisionAndRound
  split
  · have h : -(x * 1000000000000000000) = (-x) * 1000000000000000000 := by ring
    rw [h, chopNonneg_mul]; simp
  · exact chopNonneg_mul x

theorem chopNonneg_bounds (d a : Int) (hd : 0 ≤ d) (ha : d ≤ a * 1000000000000000000) :
    0 ≤ chopNonneg d ∧ chopNonneg d ≤ a := by
  unfold chopNonneg fivePrecision
  simp only
  split_ifs <;> omega

theorem chopNonneg_nearest (d : Int) :
    2 * (chopNonneg d * 1000000000000000000 - d) ≤ 1000000000000000000
    ∧ -1000000000000000000 ≤ 2 * (chopNonneg d * 1000000000000000000 - d)
    ∧ ((2 * (chopNonneg d * 1000000000000000000 - d) = 1000000000000000000
        ∨ 2 * (chopNonneg d * 1000000000000000000 - d) = -1000000000000000000)
        → chopNonneg d % 2 = 0)
    ∧ (2 * (d % 1000000000000000000) ≠ 1000000000000000000
        → chopNonneg d = (2 * d + 1000000000000000000) / 2000000000000000000) := by
  unfold chopNonneg fivePrecision
  simp only
  split_ifs <;> refine ⟨?_, ?_, ?_, ?_⟩ <;> omega

theorem bitLen_mul_le (a r : Int) (hb : bitLen a ≤ maxBitLen) (hr0 : 0 ≤ r)
    (hr1 : r ≤ precisionReuse) : bitLen (a * r) ≤ maxDecBitLen := by
  rw [bitLen_le_iff] at hb ⊢
  unfold maxDecBitLen maxBitLen DecimalPrecisionBits
  unfold maxBitLen at hb
  unfold precisionReuse at hr1
  rw [Int.natAbs_mul]
  have h1 : r.natAbs < 2 ^ 60 := by norm_num; omega
  have h2 : a.natAbs * r.natAbs < 2 ^ 255 * 2 ^ 60 :=
    Nat.mul_lt_mul'' hb h1
  rw [pow_add]
  exact h2

theorem bitLen_mono (x y : Int) (n : Nat) (h0 : 0 ≤ x) (hxy : x ≤ y)
    (hy : bitLen y ≤ n) : bitLen x ≤ n := by
  rw [bitLen_le_iff] at hy ⊢
  omega

/-- The amounts bound by the first two statements, for an amount in the range
of `sdk.Int` and a fee percentage between zero and one. -/
theorem splitAmounts_unit (a : Int) (r : Dec) (ha : 0 ≤ a) (hb : bitLen a ≤ maxBitLen)
    (hr0 : 0 ≤ r.i) (hr1 : r.i ≤ precisionReuse) :
    splitAmounts r a = .ok (chopNonneg (a * r.i), a - chopNonneg (a * r.i))
      ∧ 0 ≤ chopNonneg (a * r.i) ∧ chopNonneg (a * r.i) ≤ a := by
  have hprod : (IntToDec a).i * r.i = (a * r.i) * 1000000000000000000 := by
    simp only [IntToDec, precisionReuse]; ring
  have hnn : 0 ≤ a * r.i := mul_nonneg ha hr0
  have hle : a * r.i ≤ a * 1000000000000000000 := by
    unfold precisionReuse at hr1
    exact mul_le_mul_of_nonneg_left hr1 ha
  obtain ⟨hf0, hf1⟩ := chopNonneg_bounds (a * r.i) a hnn hle
  have hmul : DecMul (IntToDec a) r = .ok ⟨a * r.i⟩ := by
    unfold DecMul
    simp only [hprod, chopPrecisionAndRound_mul]
    rw [if_neg (not_lt.mpr (bitLen_mul_le a r.i hb hr0 hr1))]
  have hround : DecRoundInt ⟨a * r.i⟩ = .ok (chopNonneg (a * r.i)) := by
    unfold DecRoundInt NewIntFromBigInt chopPrecisionAndRound
    simp only [if_neg (not_lt.mpr hnn)]
    rw [if_neg (not_lt.mpr (bitLen_mono _ a _ hf0 hf1 hb))]
  have hsub : IntSub a (chopNonneg (a * r.i)) = .ok (a - chopNonneg (a * r.i)) := by
    unfold IntSub
    simp only
    rw [if_neg (not_lt.mpr (bitLen_mono _ a _ (by omega) (by omega) hb))]
  refine ⟨?_, hf0, hf1⟩
  unfold splitAmounts
  simp only [hmul, hround, hsub, bind, Except.bind, pure, Except.pure]

/-! ## The fee split -/

/-- C1: for every amount `a ≥ 0` in the range of `sdk.Int` and every fee ratio
between zero and one, the first statements of `ForwardTransferPacket` yield a
fee amount and a packet amount whose sum is exactly `a`. -/
theorem C1_fee_plus_packet_eq_amount (a : Int) (r : Dec) (ha : 0 ≤ a)
    (hb : bitLen a ≤ maxBitLen) (hr0 : 0 ≤ r.i) (hr1 : r.i ≤ precisionReuse) :
    ∃ feeAmount packetAmount : Int,
      splitAmounts r a = .ok (feeAmount, packetAmount) ∧ feeAmount + packetAmount = a := by
  obtain ⟨h, _, _⟩ := splitAmounts_unit a r ha hb hr0 hr1
  exact ⟨_, _, h, by omega⟩

/-- C1 at amount 1001 and ratio 0.05: fee 50, packet 951. -/
theorem C1_witness :
    ∃ feeAmount packetAmount : Int,
      splitAmounts ⟨50000000000000000⟩ 1001 = .ok (feeAmount, packetAmount)
        ∧ feeAmount + packetAmount = 1001 :=
  C1_fee_plus_packet_eq_amount 1001 ⟨50000000000000000⟩ (by decide) (by decide)
    (by decide) (by decide)

/-- C5 (as stated) fails: at amount 1 and ratio 0.5 the product is exactly one
half; the computed fee is 0 (the even neighbour) and the packet amount is 1,
whereas round-half-up gives 1. -/
theorem C5_counterexample :
    (0 : Int) ≤ 1 ∧ bitLen 1 ≤ maxBitLen
      ∧ (0 : Int) ≤ (Dec.mk 500000000000000000).i
      ∧ (Dec.mk 500000000000000000).i ≤ precisionReuse
      ∧ splitAmounts ⟨500000000000000000⟩ 1 = .ok (0, 1)
      ∧ roundHalfUp ⟨500000000000000000⟩ 1 = 1 := by
  decide

/-- C5 (amended): for every amount `a ≥ 0` in the range of `sdk.Int` and every
ratio between zero and one, the fee is `a × r` rounded to the nearest whole
unit with ties going to the even neighbour, and the packet amount is
`a - fee`; the fee equals the round-half-up value whenever `a × r` is not
exactly halfway between two whole units. -/
theorem C5_fee_rounds_half_to_even (a : Int) (r : Dec) (ha : 0 ≤ a)
    (hb : bitLen a ≤ maxBitLen) (hr0 : 0 ≤ r.i) (hr1 : r.i ≤ precisionReuse) :
    ∃ feeAmount packetAmount : Int,
      splitAmounts r a = .ok (feeAmount, packetAmount)
      ∧ packetAmount = a - feeAmount
      ∧ 2 * |feeAmount * 1000000000000000000 - a * r.i| ≤ 1000000000000000000
      ∧ (2 * |feeAmount * 1000000000000000000 - a * r.i| = 1000000000000000000
          → feeAmount % 2 = 0)
      ∧ (2 * ((a * r.i) % 1000000000000000000) ≠ 1000000000000000000
          → feeAmount = roundHalfUp r a) := by
  obtain ⟨h, _, _⟩ := splitAmounts_unit a r ha hb hr0 hr1
  refine ⟨_, _, h, rfl, ?_⟩
  obtain ⟨h1, h2, h3, h4⟩ := chopNonneg_nearest (a * r.i)
  unfold roundHalfUp
  generalize chopNonneg (a * r.i) = f at h1 h2 h3 h4 ⊢
  generalize a * r.i = d at h1 h2 h3 h4 ⊢
  refine ⟨?_, ?_, h4⟩
  · rcases abs_cases (f * 1000000000000000000 - d) with ⟨e, _⟩ | ⟨e, _⟩ <;> omega
  · intro h5
    apply h3
    rcases abs_cases (f * 1000000000000000000 - d) with ⟨e, _⟩ | ⟨e, _⟩ <;> omega

/-- C5 (amended) at amount 3 and ratio 0.5: the product is 1.5 and the fee is
the even neighbour 2. -/
theorem C5_witness :
    ∃ feeAmount packetAmount : Int,
      splitAmounts ⟨500000000000000000⟩ 3 = .ok (feeAmount, packetAmount)
      ∧ packetAmount = 3 - feeAmount
      ∧ 2 * |feeAmount * 1000000000000000000 - 3 * (Dec.mk 500000000000000000).i|
          ≤ 1000000000000000000
      ∧ (2 * |feeAmount * 1000000000000000000 - 3 * (Dec.mk 500000000000000000).i|
          = 1000000000000000000 → feeAmount % 2 = 0)
      ∧ (2 * ((3 * (Dec.mk 500000000000000000).i) % 1000000000000000000)
          ≠ 1000000000000000000 → feeAmount = roundHalfUp ⟨500000000000000000⟩ 3) :=
  C5_fee_rounds_half_to_even 3 ⟨500000000000000000⟩ (by decide) (by decide)
    (by decide) (by decide)

/-- C6: for every amount `a ≥ 0` in the range of `sdk.Int` and every ratio
between zero and one, the fee lies between `0` and `a` and the packet amount is
non-negative, so `NewCoin` never panics on a negative amount for either of
them: with a valid denomination both coins are constructed. -/
theorem C6_fee_and_packet_nonneg (a : Int) (r : Dec) (ha : 0 ≤ a)
    (hb : bitLen a ≤ maxBitLen) (hr0 : 0 ≤ r.i) (hr1 : r.i ≤ precisionReuse) :
    ∃ feeAmount packetAmount : Int,
      splitAmounts r a = .ok (feeAmount, packetAmount)
      ∧ 0 ≤ feeAmount ∧ feeAmount ≤ a ∧ 0 ≤ packetAmount
      ∧ (∀ denom n, NewCoin denom feeAmount ≠ .error (.negativeCoinAmount n))
      ∧ (∀ denom n, NewCoin denom packetAmount ≠ .error (.negativeCoinAmount n))
      ∧ (∀ denom, ValidateDenom denom = true →
          NewCoin denom feeAmount = .ok ⟨denom, feeAmount⟩
          ∧ NewCoin denom packetAmount = .ok ⟨denom, packetAmount⟩) := by
  obtain ⟨h, hf0, hf1⟩ := splitAmounts_unit a r ha hb hr0 hr1
  have hp0 : 0 ≤ a - chopNonneg (a * r.i) := by omega
  refine ⟨_, _, h, hf0, hf1, hp0, ?_, ?_, ?_⟩
  · intro denom n
    unfold NewCoin
    split_ifs with h1 h2
    · simp
    · omega
    · simp
  · intro denom n
    unfold NewCoin
    split_ifs with h1 h2
    · simp
    · omega
    · simp
  · intro denom hd
    unfold NewCoin
    simp [hd, not_lt.mpr hf0, not_lt.mpr hp0]

/-- C6 at amount 7 and ratio 0.5. -/
theorem C6_witness :
    ∃ feeAmount packetAmount : Int,
      splitAmounts ⟨500000000000000000⟩ 7 = .ok (feeAmount, packetAmount)
      ∧ 0 ≤ feeAmount ∧ feeAmount ≤ 7 ∧ 0 ≤ packetAmount
      ∧ (∀ denom n, NewCoin denom feeAmount ≠ .error (.negativeCoinAmount n))
      ∧ (∀ denom n, NewCoin denom packetAmount ≠ .error (.negativeCoinAmount n))
      ∧ (∀ denom, ValidateDenom denom = true →
          NewCoin denom feeAmount = .ok ⟨denom, feeAmount⟩
          ∧ NewCoin denom packetAmount = .ok ⟨denom, packetAmount⟩) :=
  C6_fee_and_packet_nonneg 7 ⟨500000000000000000⟩ (by decide) (by decide)
    (by decide) (by decide)

/-- C7: for every amount `a ≥ 0` in the range of `sdk.Int` and ratio between
zero and one with `a × r` a whole number `n`, the fee is `n` and the packet
amount `a - n`; ratio zero gives fee `0` and packet `a`; amount zero gives fee
and packet `0`; amount 1000 with ratio 0.05 gives fee 50 and packet 950. -/
theorem C7_exact_products :
    (∀ (a : Int) (r : Dec) (n : Int), 0 ≤ a → bitLen a ≤ maxBitLen → 0 ≤ r.i →
        r.i ≤ precisionReuse → a * r.i = n * precisionReuse →
        splitAmounts r a = .ok (n, a - n))
    ∧ (∀ a : Int, 0 ≤ a → bitLen a ≤ maxBitLen → splitAmounts ⟨0⟩ a = .ok (0, a))
    ∧ (∀ r : Dec, 0 ≤ r.i → r.i ≤ precisionReuse → splitAmounts r 0 = .ok (0, 0))
    ∧ splitAmounts ⟨50000000000000000⟩ 1000 = .ok (50, 950) := by
  have key : ∀ (a : Int) (r : Dec) (n : Int), 0 ≤ a → bitLen a ≤ maxBitLen → 0 ≤ r.i →
      r.i ≤ precisionReuse → a * r.i = n * precisionReuse →
      splitAmounts r a = .ok (n, a - n) := by
    intro a r n ha hb hr0 hr1 hn
    obtain ⟨h, _, _⟩ := splitAmounts_unit a r ha hb hr0 hr1
    unfold precisionReuse at hn
    rw [h, hn, chopNonneg_mul]
  refine ⟨key, ?_, ?_, by decide⟩
  · intro a ha hb
    have h := key a ⟨0⟩ 0 ha hb (by decide) (by decide) (by simp)
    simpa using h
  · intro r hr0 hr1
    have h := key 0 r 0 (by decide) (by decide) hr0 hr1 (by simp)
    simpa using h

/-- C7 at amount 200 and ratio 0.25: the product is the whole number 50. -/
theorem C7_witness : splitAmounts ⟨250000000000000000⟩ 200 = .ok (50, 200 - 50) :=
  C7_exact_products.1 200 ⟨250000000000000000⟩ 50 (by decide) (by decide) (by decide)
    (by decide) (by decide)

/-! ## The forwarding step -/

theorem splitAmounts_ok (fp : Dec) (a f p : Int) (h : splitAmounts fp a = .ok (f, p)) :
    p = a - f := by
  unfold splitAmounts at h
  cases h1 : DecMul (IntToDec a) fp with
  | error e => simp [h1, bind, Except.bind] at h
  | ok product =>
    cases h2 : DecRoundInt product with
    | error e => simp [h1, h2, bind, Except.bind] at h
    | ok fee =>
      cases h3 : IntSub a fee with
      | error e => simp [h1, h2, h3, bind, Except.bind] at h
      | ok pkt =>
        simp only [h1, h2, h3, bind, Except.bind, pure, Except.pure, Except.ok.injEq,
          Prod.mk.injEq] at h
        unfold IntSub at h3
        simp only at h3
        split_ifs at h3
        simp only [Except.ok.injEq] at h3
        omega

theorem NewCoin_ok (denom : String) (amount : Int) (c : Coin)
    (h : NewCoin denom amount = .ok c) : c = ⟨denom, amount⟩ ∧ 0 ≤ amount := by
  unfold NewCoin at h
  split_ifs at h with h1 h2
  simp only [Except.ok.injEq] at h
  exact ⟨h.symm, by omega⟩

/-- What a successful coin construction in `ForwardTransferPacket` binds. -/
theorem splitToken_ok (fp : Dec) (token : Coin) (s : Split)
    (h : splitToken fp token = .ok s) :
    splitAmounts fp token.Amount = .ok (s.feeAmount, s.packetAmount)
    ∧ s.packetAmount = token.Amount - s.feeAmount
    ∧ s.feeCoins = [⟨token.Denom, s.feeAmount⟩]
    ∧ s.packetCoin = ⟨token.Denom, token.Amount - s.feeAmount⟩
    ∧ 0 ≤ s.feeAmount ∧ s.feeAmount ≤ token.Amount := by
  unfold splitToken at h
  cases h1 : splitAmounts fp token.Amount with
  | error e => simp [h1, bind, Except.bind] at h
  | ok amounts =>
    obtain ⟨f, p⟩ := amounts
    have hp := splitAmounts_ok fp token.Amount f p h1
    cases h2 : NewCoin token.Denom f with
    | error e => simp [h1, h2, bind, Except.bind] at h
    | ok feeCoin =>
      cases h3 : NewCoin token.Denom p with
      | error e => simp [h1, h2, h3, bind, Except.bind] at h
      | ok packetCoin =>
        simp only [h1, h2, h3, bind, Except.bind, pure, Except.pure, Except.ok.injEq] at h
        obtain ⟨e2, hf0⟩ := NewCoin_ok _ _ _ h2
        obtain ⟨e3, hp0⟩ := NewCoin_ok _ _ _ h3
        subst h
        simp only [e2, e3, hp, true_and]
        exact ⟨hf0, by omega⟩

theorem ForwardTransferPacket_panic {σ : Type} (k : Keeper σ) (ctx : Context σ)
    (pr : ParsedReceiver) (token : Coin) (labels : List Label) (p : Panic)
    (hs : splitToken (k.GetFeePercentage ctx) token = .error p) :
    (ForwardTransferPacket k ctx pr token labels).calls = []
    ∧ (ForwardTransferPacket k ctx pr token labels).outcome = .panic p := by
  unfold ForwardTransferPacket
  simp [hs]

/-- The three shapes of the call trace once the coins are constructed: no fee
and one send; a failed funding alone; a funding followed by one send. -/
theorem ForwardTransferPacket_calls {σ : Type} (k : Keeper σ) (ctx : Context σ)
    (pr : ParsedReceiver) (token : Coin) (labels : List Label) (s : Split)
    (hs : splitToken (k.GetFeePercentage ctx) token = .ok s) :
    (IntIsPositive s.feeAmount = false
      ∧ (ForwardTransferPacket k ctx pr token labels).calls =
          [Call.SendTransfer pr.Port pr.Channel s.packetCoin pr.ReceiverAddress
            pr.FinalDestination ⟨0, 0⟩ (TransferDefaultTimeout ctx)])
    ∨ (IntIsPositive s.feeAmount = true
      ∧ ∃ e, (k.FundCommunityPool ctx s.feeCoins pr.ReceiverAddress).2 = some e
        ∧ (ForwardTransferPacket k ctx pr token labels).calls =
            [Call.FundCommunityPool s.feeCoins pr.ReceiverAddress]
        ∧ (ForwardTransferPacket k ctx pr token labels).outcome =
            .error (Wrapf .ErrInsufficientFunds e))
    ∨ (IntIsPositive s.feeAmount = true
      ∧ (k.FundCommunityPool ctx s.feeCoins pr.ReceiverAddress).2 = none
      ∧ (ForwardTransferPacket k ctx pr token labels).calls =
          [Call.FundCommunityPool s.feeCoins pr.ReceiverAddress,
           Call.SendTransfer pr.Port pr.Channel s.packetCoin pr.ReceiverAddress
            pr.FinalDestination ⟨0, 0⟩ (TransferDefaultTimeout ctx)]) := by
  unfold ForwardTransferPacket
  simp only [hs]
  by_cases hpos : IntIsPositive s.feeAmount = true
  · cases hf : (k.FundCommunityPool ctx s.feeCoins pr.ReceiverAddress).2 with
    | some e =>
      right; left
      refine ⟨hpos, e, rfl, ?_, ?_⟩ <;>
        simp [payFees, hpos, Keeper.perform, hf]
    | none =>
      right; right
      refine ⟨hpos, rfl, ?_⟩
      simp only [payFees, hpos, Keeper.perform, hf, if_true]
      split <;> [skip; split] <;> simp [TransferDefaultTimeout]
  · left
    simp only [Bool.not_eq_true] at hpos
    refine ⟨hpos, ?_⟩
    simp only [payFees, hpos, Keeper.perform]
    simp only [Bool.false_eq_true, if_false]
    split <;> [skip; split] <;> simp [TransferDefaultTimeout]

/-- C2: whenever `ForwardTransferPacket` calls the fee-pool funder and that call
returns an error, no `SendTransfer` call is made and `ForwardTransferPacket`
returns an error (the funder's message wrapped in `ErrInsufficientFunds`). -/
theorem C2_fund_failure_stops_forward {σ : Type} (k : Keeper σ) (ctx : Context σ)
    (pr : ParsedReceiver) (token : Coin) (labels : List Label)
    (coins : List Coin) (payer : AccAddress) (e : String)
    (hcall : Call.FundCommunityPool coins payer ∈
      (ForwardTransferPacket k ctx pr token labels).calls)
    (herr : (k.FundCommunityPool ctx coins payer).2 = some e) :
    (∀ c ∈ (ForwardTransferPacket k ctx pr token labels).calls, c.isSendTransfer = false)
    ∧ (ForwardTransferPacket k ctx pr token labels).outcome =
        .error (Wrapf .ErrInsufficientFunds e) := by
  cases hs : splitToken (k.GetFeePercentage ctx) token with
  | error p =>
    rw [(ForwardTransferPacket_panic k ctx pr token labels p hs).1] at hcall
    simp at hcall
  | ok s =>
    rcases ForwardTransferPacket_calls k ctx pr token labels s hs with
      ⟨_, hc⟩ | ⟨_, e1, he1, hc, ho⟩ | ⟨_, hnone, hc⟩
    · rw [hc] at hcall
      simp at hcall
    · rw [hc] at hcall
      simp only [List.mem_singleton, Call.FundCommunityPool.injEq] at hcall
      obtain ⟨h1, h2⟩ := hcall
      subst h1 h2
      rw [he1] at herr
      simp only [Option.some.injEq] at herr
      subst herr
      rw [hc, ho]
      simp [Call.isSendTransfer]
    · rw [hc] at hcall
      simp only [List.mem_cons, Call.FundCommunityPool.injEq, List.mem_singleton,
        reduceCtorEq, or_false, List.not_mem_nil] at hcall
      obtain ⟨h1, h2⟩ := hcall
      subst h1 h2
      rw [hnone] at herr
      simp at herr

/-- C2 at amount 1000, ratio 0.05 and a funder that fails. -/
theorem C2_witness :
    (∀ c ∈ (ForwardTransferPacket (demoKeeper ⟨50000000000000000⟩ true false) demoCtx
        demoReceiver ⟨"uatom", 1000⟩ []).calls, c.isSendTransfer = false)
    ∧ (ForwardTransferPacket (demoKeeper ⟨50000000000000000⟩ true false) demoCtx
        demoReceiver ⟨"uatom", 1000⟩ []).outcome =
        .error (Wrapf .ErrInsufficientFunds "fund failed") :=
  C2_fund_failure_stops_forward (demoKeeper ⟨50000000000000000⟩ true false) demoCtx
    demoReceiver ⟨"uatom", 1000⟩ [] [⟨"uatom", 50⟩] [1, 2, 3] "fund failed"
    (by decide) (by decide)

/-- C3: whenever the coins are constructed and the send step is reached (the fee
is not positive, or the funder returned no error), `SendTransfer` is called
with the receiver's port and channel, the coin `(token.Denom, token.Amount -
feeAmount)`, the receiver address as sender, the final destination as
receiver, timeout height `{0, 0}` and timeout timestamp
`TransferDefaultTimeout ctx`; no other `SendTransfer` call is made. -/
theorem C3_send_transfer_arguments {σ : Type} (k : Keeper σ) (ctx : Context σ)
    (pr : ParsedReceiver) (token : Coin) (labels : List Label) (s : Split)
    (hs : splitToken (k.GetFeePercentage ctx) token = .ok s)
    (hreach : ¬ (0 < s.feeAmount)
      ∨ (k.FundCommunityPool ctx s.feeCoins pr.ReceiverAddress).2 = none) :
    Call.SendTransfer pr.Port pr.Channel ⟨token.Denom, token.Amount - s.feeAmount⟩
        pr.ReceiverAddress pr.FinalDestination ⟨0, 0⟩ (TransferDefaultTimeout ctx)
      ∈ (ForwardTransferPacket k ctx pr token labels).calls
    ∧ ∀ c ∈ (ForwardTransferPacket k ctx pr token labels).calls,
        c.isSendTransfer = true →
        c = Call.SendTransfer pr.Port pr.Channel ⟨token.Denom, token.Amount - s.feeAmount⟩
          pr.ReceiverAddress pr.FinalDestination ⟨0, 0⟩ (TransferDefaultTimeout ctx) := by
  obtain ⟨_, _, _, hpc, _, _⟩ := splitToken_ok _ _ _ hs
  rcases ForwardTransferPacket_calls k ctx pr token labels s hs with
    ⟨_, hc⟩ | ⟨hpos, e1, he1, _, _⟩ | ⟨_, _, hc⟩
  · rw [hc, hpc]
    simp
  · rcases hreach with h | h
    · simp [IntIsPositive] at hpos
      omega
    · rw [he1] at h
      simp at h
  · rw [hc, hpc]
    simp [Call.isSendTransfer]

/-- C3 at amount 1000, ratio 0.05 and collaborators that succeed. -/
theorem C3_witness :
    Call.SendTransfer "transfer" "channel-0" ⟨"uatom", 1000 - 50⟩ [1, 2, 3] "dest" ⟨0, 0⟩
        (TransferDefaultTimeout demoCtx)
      ∈ (ForwardTransferPacket (demoKeeper ⟨50000000000000000⟩ false false) demoCtx
          demoReceiver ⟨"uatom", 1000⟩ []).calls
    ∧ ∀ c ∈ (ForwardTransferPacket (demoKeeper ⟨50000000000000000⟩ false false) demoCtx
          demoReceiver ⟨"uatom", 1000⟩ []).calls,
        c.isSendTransfer = true →
        c = Call.SendTransfer "transfer" "channel-0" ⟨"uatom", 1000 - 50⟩ [1, 2, 3] "dest"
          ⟨0, 0⟩ (TransferDefaultTimeout demoCtx) :=
  C3_send_transfer_arguments (demoKeeper ⟨50000000000000000⟩ false false) demoCtx
    demoReceiver ⟨"uatom", 1000⟩ [] ⟨50, 950, [⟨"uatom", 50⟩], ⟨"uatom", 950⟩⟩
    (by decide) (Or.inr (by decide))

/-- C4 (as stated) fails: with amount 10 and ratio 2 the computed fee is 20,
strictly positive, yet the funder is not called: the packet amount is -10 and
constructing the packet coin panics before any collaborator call. -/
theorem C4_counterexample :
    splitAmounts ⟨2000000000000000000⟩ 10 = .ok (20, -10)
    ∧ (0 : Int) < 20
    ∧ (ForwardTransferPacket (demoKeeper ⟨2000000000000000000⟩ false false) demoCtx
        demoReceiver ⟨"uatom", 10⟩ []).calls = []
    ∧ (ForwardTransferPacket (demoKeeper ⟨2000000000000000000⟩ false false) demoCtx
        demoReceiver ⟨"uatom", 10⟩ []).outcome = .panic (.negativeCoinAmount (-10)) := by
  decide

/-- C4 (amended): whenever the fee coin and the packet coin are constructed,
`ForwardTransferPacket` calls the fee-pool funder if and only if the fee is
strictly positive; such a call carries exactly the one coin `(token.Denom,
feeAmount)` and the receiver address as payer; and when the fee is zero the
only call is the `SendTransfer` of the whole amount. -/
theorem C4_fund_iff_fee_positive {σ : Type} (k : Keeper σ) (ctx : Context σ)
    (pr : ParsedReceiver) (token : Coin) (labels : List Label) (s : Split)
    (hs : splitToken (k.GetFeePercentage ctx) token = .ok s) :
    ((∃ coins payer, Call.FundCommunityPool coins payer ∈
        (ForwardTransferPacket k ctx pr token labels).calls) ↔ 0 < s.feeAmount)
    ∧ (∀ coins payer, Call.FundCommunityPool coins payer ∈
        (ForwardTransferPacket k ctx pr token labels).calls →
        coins = [⟨token.Denom, s.feeAmount⟩] ∧ payer = pr.ReceiverAddress)
    ∧ (s.feeAmount = 0 →
        (ForwardTransferPacket k ctx pr token labels).calls =
          [Call.SendTransfer pr.Port pr.Channel ⟨token.Denom, token.Amount⟩
            pr.ReceiverAddress pr.FinalDestination ⟨0, 0⟩ (TransferDefaultTimeout ctx)]) := by
  obtain ⟨_, _, hfc, hpc, _, _⟩ := splitToken_ok _ _ _ hs
  rcases ForwardTransferPacket_calls k ctx pr token labels s hs with
    ⟨hpos, hc⟩ | ⟨hpos, e1, _, hc, _⟩ | ⟨hpos, _, hc⟩
  · have hle : ¬ (0 < s.feeAmount) := by simpa [IntIsPositive] using hpos
    rw [hc, hpc]
    refine ⟨?_, ?_, ?_⟩
    · simp [hle]
    · simp
    · intro h0
      simp [h0]
  · have hlt : 0 < s.feeAmount := by simpa [IntIsPositive] using hpos
    rw [hc, hfc]
    refine ⟨?_, ?_, ?_⟩
    · simp [hlt]
    · intro coins payer hm
      simpa using hm
    · intro h0
      omega
  · have hlt : 0 < s.feeAmount := by simpa [IntIsPositive] using hpos
    rw [hc, hfc]
    refine ⟨?_, ?_, ?_⟩
    · simp [hlt]
    · intro coins payer hm
      simpa using hm
    · intro h0
      omega

/-- C4 (amended) at amount 1000, ratio 0.05 and collaborators that succeed. -/
theorem C4_witness :
    ((∃ coins payer, Call.FundCommunityPool coins payer ∈
        (ForwardTransferPacket (demoKeeper ⟨50000000000000000⟩ false false) demoCtx
          demoReceiver ⟨"uatom", 1000⟩ []).calls) ↔ (0 : Int) < 50)
    ∧ (∀ coins payer, Call.FundCommunityPool coins payer ∈
        (ForwardTransferPacket (demoKeeper ⟨50000000000000000⟩ false false) demoCtx
          demoReceiver ⟨"uatom", 1000⟩ []).calls →
        coins = [⟨"uatom", 50⟩] ∧ payer = [1, 2, 3])
    ∧ ((50 : Int) = 0 →
        (ForwardTransferPacket (demoKeeper ⟨50000000000000000⟩ false false) demoCtx
          demoReceiver ⟨"uatom", 1000⟩ []).calls =
          [Call.SendTransfer "transfer" "channel-0" ⟨"uatom", 1000⟩ [1, 2, 3] "dest"
            ⟨0, 0⟩ (TransferDefaultTimeout demoCtx)]) :=
  C4_fund_iff_fee_positive (demoKeeper ⟨50000000000000000⟩ false false) demoCtx
    demoReceiver ⟨"uatom", 1000⟩ [] ⟨50, 950, [⟨"uatom", 50⟩], ⟨"uatom", 950⟩⟩ (by decide)

/-- A fee percentage between zero and one and a well-formed token (valid
denomination, non-negative amount in the range of `sdk.Int`) always allow the
coins to be constructed. -/
theorem splitToken_unit (r : Dec) (token : Coin) (hd : ValidateDenom token.Denom = true)
    (ha : 0 ≤ token.Amount) (hb : bitLen token.Amount ≤ maxBitLen)
    (hr0 : 0 ≤ r.i) (hr1 : r.i ≤ precisionReuse) :
    ∃ s, splitToken r token = .ok s := by
  obtain ⟨h, hf0, hf1⟩ := splitAmounts_unit token.Amount r ha hb hr0 hr1
  have hp0 : ¬ (token.Amount - chopNonneg (token.Amount * r.i) < 0) := by omega
  unfold splitToken
  simp only [h, NewCoin, hd, not_lt.mpr hf0, hp0, bind, Except.bind, pure, Except.pure]
  simp

/-! ## The receiver-field parser -/

theorem takeWhile_sep (x : Char) (l rest : List Char) (h : x ∉ l) :
    (l ++ x :: rest).takeWhile (fun c => c != x) = l := by
  induction l with
  | nil => simp [List.takeWhile]
  | cons y ys ih =>
    simp only [List.mem_cons, not_or] at h
    have hy : (y != x) = true := by simpa using fun e => h.1 e.symm
    simp [List.takeWhile, hy, ih h.2]

theorem dropWhile_sep (x : Char) (l rest : List Char) (h : x ∉ l) :
    (l ++ x :: rest).dropWhile (fun c => c != x) = x :: rest := by
  induction l with
  | nil => simp [List.dropWhile]
  | cons y ys ih =>
    simp only [List.mem_cons, not_or] at h
    have hy : (y != x) = true := by simpa using fun e => h.1 e.symm
    simp [List.dropWhile, hy, ih h.2]

theorem data_ne_nil (s : String) (h : s ≠ "") : s.data ≠ [] := by
  intro e
  apply h
  exact String.ext e

theorem parseDescriptor_wellformed (p c d : String) (hp : p ≠ "") (hc : c ≠ "")
    (hd : d ≠ "") (fp : sepFree p) (fc : sepFree c) (fd : sepFree d) :
    parseDescriptor (p.data ++ '/' :: (c.data ++ ':' :: d.data))
      = some (p.data, c.data, d.data) := by
  obtain ⟨_, fp2, fp3⟩ := fp
  obtain ⟨_, fc2, fc3⟩ := fc
  obtain ⟨_, fd2, fd3⟩ := fd
  unfold parseDescriptor
  simp only [takeWhile_sep '/' p.data _ fp2, dropWhile_sep '/' p.data _ fp2, List.drop_one,
    List.tail_cons, takeWhile_sep ':' c.data _ fc3, dropWhile_sep ':' c.data _ fc3]
  have h1 : List.count '/' (p.data ++ '/' :: (c.data ++ ':' :: d.data)) = 1 := by
    simp [List.count_append, List.count_cons, List.count_eq_zero_of_not_mem, fp2, fc2, fd2]
  have h2 : List.count ':' (p.data ++ '/' :: (c.data ++ ':' :: d.data)) = 1 := by
    simp [List.count_append, List.count_cons, List.count_eq_zero_of_not_mem, fp3, fc3, fd3]
  rw [if_pos ⟨h1, h2, fp3, data_ne_nil p hp, data_ne_nil c hc, data_ne_nil d hd⟩]

/-- C8: for every string `a|p/c:d` whose address part `a` decodes to `addr` and
whose parts `p`, `c`, `d` are non-empty, the separators `|`, `/`, `:` occurring
exactly once each and in that order, `ParseReceiverData` succeeds with
`IsTransfer = true`, `ReceiverAddress = addr`, `Port = p`, `Channel = c` and
`FinalDestination = d`. -/
theorem C8_parse_forwarding_instruction (DecodeAddress : String → Except String AccAddress)
    (a p c d : String) (addr : AccAddress)
    (hdec : DecodeAddress a = .ok addr)
    (hp : p ≠ "") (hc : c ≠ "") (hd : d ≠ "")
    (fa : sepFree a) (fp : sepFree p) (fc : sepFree c) (fd : sepFree d) :
    ParseReceiverData DecodeAddress (a ++ "|" ++ p ++ "/" ++ c ++ ":" ++ d)
      = .ok ⟨true, addr, d, p, c⟩ := by
  have hdata : (a ++ "|" ++ p ++ "/" ++ c ++ ":" ++ d).data
      = a.data ++ '|' :: (p.data ++ '/' :: (c.data ++ ':' :: d.data)) := by
    simp [String.data_append]
  have hdesc := parseDescriptor_wellformed p c d hp hc hd fp fc fd
  have hcount : List.count '|' (a.data ++ '|' :: (p.data ++ '/' :: (c.data ++ ':' :: d.data)))
      = 1 := by
    simp [List.count_append, List.count_cons, List.count_eq_zero_of_not_mem, fa.1, fp.1,
      fc.1, fd.1]
  have hmk : String.mk a.data = a := rfl
  unfold ParseReceiverData
  simp only [hdata, hcount, takeWhile_sep '|' a.data _ fa.1, dropWhile_sep '|' a.data _ fa.1,
    List.drop_one, List.tail_cons, hmk, hdec, hdesc]
  simp

/-- C8 at the string `abc|transfer/channel-0:xyz` with the toy codec. -/
theorem C8_witness :
    ParseReceiverData demoDecode ("abc" ++ "|" ++ "transfer" ++ "/" ++ "channel-0" ++ ":" ++ "xyz")
      = .ok ⟨true, [97, 98, 99], "xyz", "transfer", "channel-0"⟩ :=
  C8_parse_forwarding_instruction demoDecode "abc" "transfer" "channel-0" "xyz" [97, 98, 99]
    (by decide) (by decide) (by decide) (by decide)
    (by unfold sepFree; decide) (by unfold sepFree; decide) (by unfold sepFree; decide)
    (by unfold sepFree; decide)

/-- A non-empty string without `|` and `:` that the codec decodes is returned as
a plain address. -/
theorem ParseReceiverData_plain (DecodeAddress : String → Except String AccAddress)
    (a : String) (addr : AccAddress) (hne : a ≠ "")
    (hpipe : '|' ∉ a.data) (hcolon : ':' ∉ a.data) (hdec : DecodeAddress a = .ok addr) :
    ParseReceiverData DecodeAddress a = .ok ⟨false, addr, "", "", ""⟩ := by
  unfold ParseReceiverData
  simp only [List.count_eq_zero_of_not_mem hpipe, List.count_eq_zero_of_not_mem hcolon,
    data_ne_nil a hne, hdec]
  simp

/-- C10: `ParseReceiverData` fails with an `Unparsable` error whose message
begins `unparsable receiver` on the empty string and on every string without
`|` that has two or more `:`; and it fails with an `Unparsable` error on every
string with more than one `|`. -/
theorem C10_unparsable_inputs (DecodeAddress : String → Except String AccAddress)
    (raw : String) :
    (raw = "" → ∃ msg, ParseReceiverData DecodeAddress raw = .error (.Unparsable msg)
        ∧ startsWith (ParseError.Unparsable msg).Error "unparsable receiver" = true)
    ∧ ('|' ∉ raw.data → 2 ≤ raw.data.count ':' →
        ∃ msg, ParseReceiverData DecodeAddress raw = .error (.Unparsable msg)
          ∧ startsWith (ParseError.Unparsable msg).Error "unparsable receiver" = true)
    ∧ (1 < raw.data.count '|' →
        ∃ msg, ParseReceiverData DecodeAddress raw = .error (.Unparsable msg)) := by
  refine ⟨?_, ?_, ?_⟩
  · intro h
    subst h
    exact ⟨"unparsable receiver: empty input", by simp [ParseReceiverData], by decide⟩
  · intro hpipe hcolon
    refine ⟨"unparsable receiver: ambiguous input", ?_, by decide⟩
    have hne : raw.data ≠ [] := by
      intro e
      rw [e] at hcolon
      simp at hcolon
    unfold ParseReceiverData
    simp only [List.count_eq_zero_of_not_mem hpipe, hne]
    have h0 : ¬ (List.count ':' raw.data = 0) := by omega
    have h1 : ¬ (List.count ':' raw.data = 1) := by omega
    simp [h0, h1]
  · intro hpipes
    refine ⟨"malformed receiver: multiple separators", ?_⟩
    unfold ParseReceiverData
    simp [hpipes]

/-- C10 at the strings `abc:def:` and `a|b|c` of the parser's test data. -/
theorem C10_witness :
    (∃ msg, ParseReceiverData demoDecode "abc:def:" = .error (.Unparsable msg)
        ∧ startsWith (ParseError.Unparsable msg).Error "unparsable receiver" = true)
    ∧ (∃ msg, ParseReceiverData demoDecode "a|b|c" = .error (.Unparsable msg)) :=
  ⟨(C10_unparsable_inputs demoDecode "abc:def:").2.1 (by decide) (by decide),
   (C10_unparsable_inputs demoDecode "a|b|c").2.2 (by decide)⟩

theorem dropWhile_mem (x : Char) (l : List Char) (h : x ∈ l) :
    ∃ rest, l.dropWhile (fun c => c != x) = x :: rest := by
  induction l with
  | nil => simp at h
  | cons y ys ih =>
    by_cases hy : y = x
    · subst hy
      exact ⟨ys, by simp [List.dropWhile]⟩
    · have hx : x ∈ ys := by
        rcases List.mem_cons.mp h with e | e
        · exact absurd e.symm hy
        · exact e
      obtain ⟨rest, hr⟩ := ih hx
      refine ⟨rest, ?_⟩
      have hb : (y != x) = true := by simpa using hy
      simp [List.dropWhile, hb, hr]

theorem not_mem_takeWhile (x : Char) (l : List Char) :
    x ∉ l.takeWhile (fun c => c != x) := by
  intro h
  have := List.mem_takeWhile_imp h
  simp at this

/-- Splitting a list with exactly one occurrence of `x` at that occurrence. -/
theorem split_at_single (x : Char) (l : List Char) (h : l.count x = 1) :
    l = l.takeWhile (fun c => c != x) ++ x :: (l.dropWhile (fun c => c != x)).drop 1
    ∧ x ∉ l.takeWhile (fun c => c != x)
    ∧ x ∉ (l.dropWhile (fun c => c != x)).drop 1 := by
  have hmem : x ∈ l := List.count_pos_iff.mp (by omega)
  obtain ⟨rest, hr⟩ := dropWhile_mem x l hmem
  have hsplit : l = l.takeWhile (fun c => c != x) ++ x :: rest := by
    conv_lhs => rw [← List.takeWhile_append_dropWhile (fun c => c != x) l, hr]
  have hnot := not_mem_takeWhile x l
  rw [hr]
  simp only [List.drop_one, List.tail_cons]
  refine ⟨hsplit, hnot, ?_⟩
  intro hin
  have hc : List.count x l
      = List.count x (l.takeWhile (fun c => c != x)) + (1 + List.count x rest) := by
    conv_lhs => rw [hsplit]
    simp [List.count_append, List.count_cons, Nat.add_comm]
  have hpos : 0 < List.count x rest := List.count_pos_iff.mpr hin
  omega

/-- What an accepted descriptor looks like: the three components are
non-empty, free of `/` and `:`, and the descriptor is their concatenation
around one `/` and one `:`. -/
theorem parseDescriptor_some (l p c d : List Char) (h : parseDescriptor l = some (p, c, d)) :
    l = p ++ '/' :: (c ++ ':' :: d)
    ∧ p ≠ [] ∧ c ≠ [] ∧ d ≠ []
    ∧ '/' ∉ p ∧ ':' ∉ p ∧ '/' ∉ c ∧ ':' ∉ c ∧ '/' ∉ d ∧ ':' ∉ d := by
  unfold parseDescriptor at h
  simp only at h
  split_ifs at h with hc
  obtain ⟨h1, h2, h3, h4, h5, h6⟩ := hc
  simp only [Option.some.injEq, Prod.mk.injEq] at h
  obtain ⟨e1, e2, e3⟩ := h
  obtain ⟨s1, n1, n2⟩ := split_at_single '/' l h1
  generalize hrest : (l.dropWhile (fun c => c != '/')).drop 1 = rest at *
  rw [e1] at s1 n1 h3 h4
  have hcr : List.count ':' rest = 1 := by
    have hc : List.count ':' l = List.count ':' p + List.count ':' rest := by
      conv_lhs => rw [s1]
      simp [List.count_append, List.count_cons]
    have hp0 : List.count ':' p = 0 := List.count_eq_zero_of_not_mem h3
    omega
  obtain ⟨s2, m1, m2⟩ := split_at_single ':' rest hcr
  rw [e2, e3] at s2
  rw [e2] at m1
  rw [e3] at m2
  rw [e2] at h5
  rw [e3] at h6
  have hsub1 : ∀ y, y ∈ c → y ∈ rest := by
    intro y hy
    rw [s2]
    exact List.mem_append_left _ hy
  have hsub2 : ∀ y, y ∈ d → y ∈ rest := by
    intro y hy
    rw [s2]
    exact List.mem_append_right _ (List.mem_cons_of_mem _ hy)
  refine ⟨?_, h4, h5, h6, n1, h3, fun hh => n2 (hsub1 _ hh), m1,
    fun hh => n2 (hsub2 _ hh), m2⟩
  rw [← s2]
  exact s1

theorem IsDescriptor_of_parse (desc : String) (p c d : List Char)
    (h : parseDescriptor desc.data = some (p, c, d)) : IsDescriptor desc := by
  obtain ⟨e, hp, hc, hd, a1, a2, a3, a4, a5, a6⟩ := parseDescriptor_some _ _ _ _ h
  refine ⟨⟨p⟩, ⟨c⟩, ⟨d⟩, ?_, ?_, ?_, a1, a2, a3, a4, a5, a6, ?_⟩
  · intro e1; exact hp (congrArg String.data e1)
  · intro e1; exact hc (congrArg String.data e1)
  · intro e1; exact hd (congrArg String.data e1)
  · apply String.ext
    simp [String.data_append, e]

/-- The parser on a string with exactly one `|`: the address part is decoded
first, then the descriptor is checked. -/
theorem ParseReceiverData_one_pipe (DecodeAddress : String → Except String AccAddress)
    (a desc : String) (ha : '|' ∉ a.data) (hd : '|' ∉ desc.data) :
    ParseReceiverData DecodeAddress (a ++ "|" ++ desc) =
      match DecodeAddress a with
      | .error msg => .error (.AddressDecodeError msg)
      | .ok addr =>
        match parseDescriptor desc.data with
        | none =>
          .error (.InvalidFormat "formatting incorrect: expected port/channel:destination")
        | some (port, channel, destination) =>
          .ok ⟨true, addr, String.mk destination, String.mk port, String.mk channel⟩ := by
  have hdata : (a ++ "|" ++ desc).data = a.data ++ '|' :: desc.data := by
    simp [String.data_append]
  have hcount : List.count '|' (a.data ++ '|' :: desc.data) = 1 := by
    simp [List.count_append, List.count_cons, List.count_eq_zero_of_not_mem, ha, hd]
  have hmk : String.mk a.data = a := rfl
  unfold ParseReceiverData
  simp only [hdata, hcount, takeWhile_sep '|' a.data _ ha, dropWhile_sep '|' a.data _ ha,
    List.drop_one, List.tail_cons, hmk]
  simp

/-- C11: `ParseReceiverData` fails with an `InvalidFormat` error whose message
begins `formatting incorrect` on every string without `|` that has exactly one
`:`, and on every string with exactly one `|` whose address part decodes but
whose descriptor part is not of the form `port/channel:destination` with three
non-empty components, for example a descriptor without `/`. -/
theorem C11_invalid_format (DecodeAddress : String → Except String AccAddress) :
    (∀ raw : String, '|' ∉ raw.data → raw.data.count ':' = 1 →
        ∃ msg, ParseReceiverData DecodeAddress raw = .error (.InvalidFormat msg)
          ∧ startsWith (ParseError.InvalidFormat msg).Error "formatting incorrect" = true)
    ∧ (∀ (a desc : String) (addr : AccAddress), '|' ∉ a.data → '|' ∉ desc.data →
        DecodeAddress a = .ok addr → ¬ IsDescriptor desc →
        ∃ msg, ParseReceiverData DecodeAddress (a ++ "|" ++ desc)
            = .error (.InvalidFormat msg)
          ∧ startsWith (ParseError.InvalidFormat msg).Error "formatting incorrect" = true)
    ∧ (∀ (a desc : String) (addr : AccAddress), '|' ∉ a.data → '|' ∉ desc.data →
        DecodeAddress a = .ok addr → '/' ∉ desc.data →
        ∃ msg, ParseReceiverData DecodeAddress (a ++ "|" ++ desc)
            = .error (.InvalidFormat msg)
          ∧ startsWith (ParseError.InvalidFormat msg).Error "formatting incorrect" = true) := by
  have second : ∀ (a desc : String) (addr : AccAddress), '|' ∉ a.data → '|' ∉ desc.data →
      DecodeAddress a = .ok addr → ¬ IsDescriptor desc →
      ∃ msg, ParseReceiverData DecodeAddress (a ++ "|" ++ desc)
          = .error (.InvalidFormat msg)
        ∧ startsWith (ParseError.InvalidFormat msg).Error "formatting incorrect" = true := by
    intro a desc addr ha hd hdec hnot
    refine ⟨"formatting incorrect: expected port/channel:destination", ?_, by decide⟩
    rw [ParseReceiverData_one_pipe DecodeAddress a desc ha hd, hdec]
    cases hp : parseDescriptor desc.data with
    | none => rfl
    | some t =>
      obtain ⟨p, c, d⟩ := t
      exact absurd (IsDescriptor_of_parse desc p c d hp) hnot
  refine ⟨?_, second, ?_⟩
  · intro raw hpipe hcolon
    refine ⟨"formatting incorrect: missing separator before forwarding descriptor", ?_,
      by decide⟩
    have hne : raw.data ≠ [] := by
      intro e
      rw [e] at hcolon
      simp at hcolon
    unfold ParseReceiverData
    simp [List.count_eq_zero_of_not_mem hpipe, hne, hcolon]
  · intro a desc addr ha hd hdec hslash
    apply second a desc addr ha hd hdec
    rintro ⟨p, c, d, _, _, _, _, _, _, _, _, _, e⟩
    apply hslash
    rw [e]
    simp [String.data_append]

/-- C11 on the parser's test data: `abc:def` and a descriptor whose `/` is
replaced by a backslash. -/
theorem C11_witness :
    (∃ msg, ParseReceiverData demoDecode "abc:def" = .error (.InvalidFormat msg)
        ∧ startsWith (ParseError.InvalidFormat msg).Error "formatting incorrect" = true)
    ∧ (∃ msg, ParseReceiverData demoDecode ("abc" ++ "|" ++ "transfer\\channel-0:xyz")
            = .error (.InvalidFormat msg)
        ∧ startsWith (ParseError.InvalidFormat msg).Error "formatting incorrect" = true) :=
  ⟨(C11_invalid_format demoDecode).1 "abc:def" (by decide) (by decide),
   (C11_invalid_format demoDecode).2.2 "abc" "transfer\\channel-0:xyz" [97, 98, 99]
     (by decide) (by decide) (by decide) (by decide)⟩

/-- C12: on a non-empty string without `|` and `:` that fails address decoding,
and on a string with exactly one `|` whose address part fails address decoding,
`ParseReceiverData` fails with the codec's message unchanged; with one `|` this
holds for every descriptor part, well formed or not, since the address is
decoded before the descriptor is checked. -/
theorem C12_decode_error_verbatim (DecodeAddress : String → Except String AccAddress) :
    (∀ (raw msg : String), raw ≠ "" → '|' ∉ raw.data → ':' ∉ raw.data →
        DecodeAddress raw = .error msg →
        ParseReceiverData DecodeAddress raw = .error (.AddressDecodeError msg)
          ∧ (ParseError.AddressDecodeError msg).Error = msg)
    ∧ (∀ (a desc msg : String), '|' ∉ a.data → '|' ∉ desc.data →
        DecodeAddress a = .error msg →
        ParseReceiverData DecodeAddress (a ++ "|" ++ desc) = .error (.AddressDecodeError msg)
          ∧ (ParseError.AddressDecodeError msg).Error = msg) := by
  refine ⟨?_, ?_⟩
  · intro raw msg hne hpipe hcolon hdec
    refine ⟨?_, rfl⟩
    unfold ParseReceiverData
    simp only [List.count_eq_zero_of_not_mem hpipe, List.count_eq_zero_of_not_mem hcolon,
      data_ne_nil raw hne, hdec]
    simp
  · intro a desc msg ha hd hdec
    refine ⟨?_, rfl⟩
    rw [ParseReceiverData_one_pipe DecodeAddress a desc ha hd, hdec]

/-- C12 with the toy codec, which refuses capital letters: a plain string, and
a string with a well-formed descriptor. -/
theorem C12_witness :
    (ParseReceiverData demoDecode "Abc" = .error (.AddressDecodeError "decoding bech32 failed")
      ∧ (ParseError.AddressDecodeError "decoding bech32 failed").Error
          = "decoding bech32 failed")
    ∧ (ParseReceiverData demoDecode ("Abc" ++ "|" ++ "transfer/channel-0:xyz")
          = .error (.AddressDecodeError "decoding bech32 failed")
      ∧ (ParseError.AddressDecodeError "decoding bech32 failed").Error
          = "decoding bech32 failed") :=
  ⟨(C12_decode_error_verbatim demoDecode).1 "Abc" "decoding bech32 failed" (by decide)
     (by decide) (by decide) (by decide),
   (C12_decode_error_verbatim demoDecode).2 "Abc" "transfer/channel-0:xyz"
     "decoding bech32 failed" (by decide) (by decide) (by decide)⟩

theorem mk_ne_empty (l : List Char) (h : l ≠ []) : String.mk l ≠ "" := by
  intro e
  exact h (congrArg String.data e)

/-- C17: whenever `ParseReceiverData` succeeds, the result has `IsTransfer =
true` if and only if `Port`, `Channel` and `FinalDestination` are all
non-empty, and when `IsTransfer = false` all three are empty. -/
theorem C17_transfer_iff_fields_present (DecodeAddress : String → Except String AccAddress)
    (raw : String) (r : ParsedReceiver)
    (h : ParseReceiverData DecodeAddress raw = .ok r) :
    (r.IsTransfer = true ↔ (r.Port ≠ "" ∧ r.Channel ≠ "" ∧ r.FinalDestination ≠ ""))
    ∧ (r.IsTransfer = false → r.Port = "" ∧ r.Channel = "" ∧ r.FinalDestination = "") := by
  unfold ParseReceiverData at h
  simp only at h
  split_ifs at h with h1 h2 h3 h4 h5
  · split at h
    · simp at h
    · split at h
      · simp at h
      · rename_i addr hdec port channel destination hp
        obtain ⟨_, np, nc, nd, _⟩ := parseDescriptor_some _ _ _ _ hp
        simp only [Except.ok.injEq] at h
        subst h
        simp [mk_ne_empty _ np, mk_ne_empty _ nc, mk_ne_empty _ nd]
  · split at h
    · simp at h
    · simp only [Except.ok.injEq] at h
      subst h
      simp

/-- C17 at the string `abc|transfer/channel-0:xyz` with the toy codec. -/
theorem C17_witness :
    ((ParsedReceiver.mk true [97, 98, 99] "xyz" "transfer" "channel-0").IsTransfer = true ↔
      ((ParsedReceiver.mk true [97, 98, 99] "xyz" "transfer" "channel-0").Port ≠ ""
        ∧ (ParsedReceiver.mk true [97, 98, 99] "xyz" "transfer" "channel-0").Channel ≠ ""
        ∧ (ParsedReceiver.mk true [97, 98, 99] "xyz" "transfer" "channel-0").FinalDestination
            ≠ ""))
    ∧ ((ParsedReceiver.mk true [97, 98, 99] "xyz" "transfer" "channel-0").IsTransfer = false →
        (ParsedReceiver.mk true [97, 98, 99] "xyz" "transfer" "channel-0").Port = ""
        ∧ (ParsedReceiver.mk true [97, 98, 99] "xyz" "transfer" "channel-0").Channel = ""
        ∧ (ParsedReceiver.mk true [97, 98, 99] "xyz" "transfer" "channel-0").FinalDestination
            = "") :=
  C17_transfer_iff_fields_present demoDecode "abc|transfer/channel-0:xyz"
    ⟨true, [97, 98, 99], "xyz", "transfer", "channel-0"⟩ (by decide)

/-! ## Outcome, telemetry and timeout of the forwarding step -/

/-- The amounts of `splitAmounts` are the fee of `feeAmountOf` and the checked
difference. -/
theorem splitAmounts_eq_feeAmountOf (fp : Dec) (a : Int) :
    splitAmounts fp a =
      match feeAmountOf fp a with
      | .error p => .error p
      | .ok fee =>
        match IntSub a fee with
        | .error p => .error p
        | .ok pkt => .ok (fee, pkt) := by
  unfold splitAmounts feeAmountOf
  cases h1 : DecMul (IntToDec a) fp with
  | error e => simp [bind, Except.bind]
  | ok product =>
    cases h2 : DecRoundInt product with
    | error e => simp [h2, bind, Except.bind]
    | ok fee =>
      cases h3 : IntSub a fee with
      | error e => simp [h2, h3, bind, Except.bind]
      | ok pkt => simp [h2, h3, bind, Except.bind, pure, Except.pure]

/-- Every `SendTransfer` call of the trace is the one call with the receiver's
port, channel, address and destination, height `{0, 0}` and the default
timeout; every funder call has the receiver address as payer. -/
theorem ForwardTransferPacket_call_shapes {σ : Type} (k : Keeper σ) (ctx : Context σ)
    (pr : ParsedReceiver) (token : Coin) (labels : List Label) :
    ∀ c ∈ (ForwardTransferPacket k ctx pr token labels).calls,
      (∃ coin, c = Call.SendTransfer pr.Port pr.Channel coin pr.ReceiverAddress
          pr.FinalDestination ⟨0, 0⟩ (TransferDefaultTimeout ctx))
      ∨ (∃ coins, c = Call.FundCommunityPool coins pr.ReceiverAddress) := by
  intro c hc
  cases hs : splitToken (k.GetFeePercentage ctx) token with
  | error p =>
    rw [(ForwardTransferPacket_panic k ctx pr token labels p hs).1] at hc
    simp at hc
  | ok s =>
    rcases ForwardTransferPacket_calls k ctx pr token labels s hs with
      ⟨_, h⟩ | ⟨_, e1, _, h, _⟩ | ⟨_, _, h⟩
    · rw [h] at hc
      simp only [List.mem_singleton] at hc
      exact Or.inl ⟨_, hc⟩
    · rw [h] at hc
      simp only [List.mem_singleton] at hc
      exact Or.inr ⟨_, hc⟩
    · rw [h] at hc
      simp only [List.mem_cons, List.mem_singleton, List.not_mem_nil, or_false] at hc
      rcases hc with hc | hc
      · exact Or.inr ⟨_, hc⟩
      · exact Or.inl ⟨_, hc⟩

/-- C15: for a block time `t ≥ 0` in nanoseconds with `t + 30 minutes`
representable as `int64`, `TransferDefaultTimeout` is `t + 1 800 000 000 000`,
and every `SendTransfer` call of `ForwardTransferPacket` carries this value as
timeout timestamp together with the timeout height `{0, 0}`. -/
theorem C15_default_timeout {σ : Type} (ctx : Context σ) (h0 : 0 ≤ ctx.BlockTime)
    (hrep : ctx.BlockTime + 1800000000000 ≤ 9223372036854775807) :
    ((TransferDefaultTimeout ctx : Nat) : Int) = ctx.BlockTime + 1800000000000
    ∧ ∀ (k : Keeper σ) (pr : ParsedReceiver) (token : Coin) (labels : List Label),
        ∀ c ∈ (ForwardTransferPacket k ctx pr token labels).calls,
          c.isSendTransfer = true →
          ∃ coin, c = Call.SendTransfer pr.Port pr.Channel coin pr.ReceiverAddress
            pr.FinalDestination ⟨0, 0⟩ (ctx.BlockTime + 1800000000000).toNat := by
  have ht : TransferDefaultTimeout ctx = (ctx.BlockTime + 1800000000000).toNat := by
    unfold TransferDefaultTimeout thirtyMinutes
    congr 1
    omega
  refine ⟨?_, ?_⟩
  · rw [ht]
    omega
  · intro k pr token labels c hc hsend
    rcases ForwardTransferPacket_call_shapes k ctx pr token labels c hc with
      ⟨coin, e⟩ | ⟨coins, e⟩
    · exact ⟨coin, by rw [e, ht]⟩
    · rw [e] at hsend
      simp [Call.isSendTransfer] at hsend

/-- C15 at block time 1 000 000 000 000 ns: the timeout is 2 800 000 000 000. -/
theorem C15_witness :
    ((TransferDefaultTimeout (Context.mk 1000000000000 (0 : Nat)) : Nat) : Int)
        = (Context.mk 1000000000000 (0 : Nat)).BlockTime + 1800000000000
    ∧ ∀ (k : Keeper Nat) (pr : ParsedReceiver) (token : Coin) (labels : List Label),
        ∀ c ∈ (ForwardTransferPacket k (Context.mk 1000000000000 (0 : Nat)) pr token
            labels).calls,
          c.isSendTransfer = true →
          ∃ coin, c = Call.SendTransfer pr.Port pr.Channel coin pr.ReceiverAddress
            pr.FinalDestination ⟨0, 0⟩
            ((Context.mk 1000000000000 (0 : Nat)).BlockTime + 1800000000000).toNat :=
  C15_default_timeout (Context.mk 1000000000000 (0 : Nat)) (by decide) (by decide)

/-- The run once the send step is reached: store, outcome and telemetry in
terms of the result of the `SendTransfer` call and of `Int64`. -/
theorem ForwardTransferPacket_sent {σ : Type} (k : Keeper σ) (ctx : Context σ)
    (pr : ParsedReceiver) (token : Coin) (labels : List Label) (s : Split)
    (hs : splitToken (k.GetFeePercentage ctx) token = .ok s)
    (hreach : IntIsPositive s.feeAmount = false
      ∨ (k.FundCommunityPool ctx s.feeCoins pr.ReceiverAddress).2 = none) :
    (ForwardTransferPacket k ctx pr token labels).store =
        (k.SendTransfer ⟨ctx.BlockTime, (payFees k ctx pr s).1⟩ pr.Port pr.Channel
          s.packetCoin pr.ReceiverAddress pr.FinalDestination ⟨0, 0⟩
          (TransferDefaultTimeout ctx)).1
    ∧ (ForwardTransferPacket k ctx pr token labels).outcome =
        (match (k.SendTransfer ⟨ctx.BlockTime, (payFees k ctx pr s).1⟩ pr.Port pr.Channel
            s.packetCoin pr.ReceiverAddress pr.FinalDestination ⟨0, 0⟩
            (TransferDefaultTimeout ctx)).2 with
          | some e => .error (Wrapf .ErrInsufficientFunds e)
          | none =>
            match IntInt64 token.Amount with
            | .error p => .panic p
            | .ok _ => .nil)
    ∧ (ForwardTransferPacket k ctx pr token labels).metrics =
        (match (k.SendTransfer ⟨ctx.BlockTime, (payFees k ctx pr s).1⟩ pr.Port pr.Channel
            s.packetCoin pr.ReceiverAddress pr.FinalDestination ⟨0, 0⟩
            (TransferDefaultTimeout ctx)).2 with
          | some _ => []
          | none =>
            match IntInt64 token.Amount with
            | .error _ => []
            | .ok v =>
              [Metric.SetGaugeWithLabels ["tx", "msg", "ibc", "transfer"] (float32OfInt64 v)
                 [⟨LabelDenom, token.Denom⟩],
               Metric.IncrCounterWithLabels ["ibc", k.ModuleName, "send"] 1 labels]) := by
  have hpay : (payFees k ctx pr s).2.2 = none := by
    unfold payFees
    rcases hreach with h | h
    · simp [h]
    · by_cases hp : IntIsPositive s.feeAmount = true
      · simp [hp, Keeper.perform, h]
      · simp [hp]
  have htime : ∀ st : σ, TransferDefaultTimeout (Context.mk ctx.BlockTime st)
      = TransferDefaultTimeout ctx := fun _ => rfl
  unfold ForwardTransferPacket
  simp only [hs]
  generalize payFees k ctx pr s = paid at hpay ⊢
  obtain ⟨st, calls, err⟩ := paid
  simp only at hpay
  subst hpay
  simp only [Keeper.perform, htime]
  cases hsend : (k.SendTransfer ⟨ctx.BlockTime, st⟩ pr.Port pr.Channel s.packetCoin
      pr.ReceiverAddress pr.FinalDestination ⟨0, 0⟩ (TransferDefaultTimeout ctx)).2 with
  | some e => simp
  | none =>
    cases hint : IntInt64 token.Amount with
    | error p => simp
    | ok v => simp

set_option maxRecDepth 8000 in
/-- C13 fails on the code: with amount `2^63` (one above the `int64` range),
ratio 0.05 and both collaborators succeeding, the funder and `SendTransfer`
are called and succeed, and then the deferred telemetry panics in `Int64`:
`ForwardTransferPacket` does not return success. -/
theorem C13_telemetry_panics_above_int64 :
    (ForwardTransferPacket (demoKeeper ⟨50000000000000000⟩ false false) demoCtx
        demoReceiver ⟨"uatom", 9223372036854775808⟩ []).outcome = .panic .int64OutOfBound
    ∧ (ForwardTransferPacket (demoKeeper ⟨50000000000000000⟩ false false) demoCtx
        demoReceiver ⟨"uatom", 9223372036854775808⟩ []).calls =
        [Call.FundCommunityPool [⟨"uatom", 461168601842738790⟩] [1, 2, 3],
         Call.SendTransfer "transfer" "channel-0" ⟨"uatom", 8762203435012037018⟩ [1, 2, 3]
           "dest" ⟨0, 0⟩ 1800000000000]
    ∧ (ForwardTransferPacket (demoKeeper ⟨50000000000000000⟩ false false) demoCtx
        demoReceiver ⟨"uatom", 9223372036854775808⟩ []).store = 2
    ∧ (ForwardTransferPacket (demoKeeper ⟨50000000000000000⟩ false false) demoCtx
        demoReceiver ⟨"uatom", 9223372036854775808⟩ []).metrics = [] := by
  decide

/-- C14: when the fee is positive, the funder succeeds and `SendTransfer` then
fails with message `e`, `ForwardTransferPacket` returns an error; the calls
are the funding and the failed send and nothing else, the store is the one
left by these two calls (the funding is not undone), and no telemetry is
emitted. -/
theorem C14_send_failure_keeps_fee {σ : Type} (k : Keeper σ) (ctx : Context σ)
    (pr : ParsedReceiver) (token : Coin) (labels : List Label) (s : Split) (e : String)
    (hs : splitToken (k.GetFeePercentage ctx) token = .ok s)
    (hpos : 0 < s.feeAmount)
    (hfund : (k.FundCommunityPool ctx s.feeCoins pr.ReceiverAddress).2 = none)
    (hsend : (k.SendTransfer
        ⟨ctx.BlockTime, (k.FundCommunityPool ctx s.feeCoins pr.ReceiverAddress).1⟩
        pr.Port pr.Channel s.packetCoin pr.ReceiverAddress pr.FinalDestination ⟨0, 0⟩
        (TransferDefaultTimeout ctx)).2 = some e) :
    (ForwardTransferPacket k ctx pr token labels).outcome
        = .error (Wrapf .ErrInsufficientFunds e)
    ∧ (ForwardTransferPacket k ctx pr token labels).calls =
        [Call.FundCommunityPool s.feeCoins pr.ReceiverAddress,
         Call.SendTransfer pr.Port pr.Channel s.packetCoin pr.ReceiverAddress
           pr.FinalDestination ⟨0, 0⟩ (TransferDefaultTimeout ctx)]
    ∧ (ForwardTransferPacket k ctx pr token labels).store =
        (k.SendTransfer
          ⟨ctx.BlockTime, (k.FundCommunityPool ctx s.feeCoins pr.ReceiverAddress).1⟩
          pr.Port pr.Channel s.packetCoin pr.ReceiverAddress pr.FinalDestination ⟨0, 0⟩
          (TransferDefaultTimeout ctx)).1
    ∧ (ForwardTransferPacket k ctx pr token labels).metrics = [] := by
  have hp : IntIsPositive s.feeAmount = true := by simpa [IntIsPositive] using hpos
  have hpay : (payFees k ctx pr s).1
      = (k.FundCommunityPool ctx s.feeCoins pr.ReceiverAddress).1 := by
    simp [payFees, hp, Keeper.perform]
  obtain ⟨h1, h2, h3⟩ :=
    ForwardTransferPacket_sent k ctx pr token labels s hs (Or.inr hfund)
  rw [hpay] at h1 h2 h3
  rw [hsend] at h2 h3
  refine ⟨h2, ?_, h1, h3⟩
  rcases ForwardTransferPacket_calls k ctx pr token labels s hs with
    ⟨hn, _⟩ | ⟨_, e1, he1, _, _⟩ | ⟨_, _, hc⟩
  · rw [hp] at hn
    simp at hn
  · rw [hfund] at he1
    simp at he1
  · exact hc

/-- C14 at amount 1000, ratio 0.05, a funder that succeeds and a `SendTransfer`
that fails. -/
theorem C14_witness :
    (ForwardTransferPacket (demoKeeper ⟨50000000000000000⟩ false true) demoCtx
        demoReceiver ⟨"uatom", 1000⟩ []).outcome
        = .error (Wrapf .ErrInsufficientFunds "send failed")
    ∧ (ForwardTransferPacket (demoKeeper ⟨50000000000000000⟩ false true) demoCtx
        demoReceiver ⟨"uatom", 1000⟩ []).calls =
        [Call.FundCommunityPool [⟨"uatom", 50⟩] [1, 2, 3],
         Call.SendTransfer "transfer" "channel-0" ⟨"uatom", 950⟩ [1, 2, 3] "dest" ⟨0, 0⟩
           (TransferDefaultTimeout demoCtx)]
    ∧ (ForwardTransferPacket (demoKeeper ⟨50000000000000000⟩ false true) demoCtx
        demoReceiver ⟨"uatom", 1000⟩ []).store = 1
    ∧ (ForwardTransferPacket (demoKeeper ⟨50000000000000000⟩ false true) demoCtx
        demoReceiver ⟨"uatom", 1000⟩ []).metrics = [] :=
  C14_send_failure_keeps_fee (demoKeeper ⟨50000000000000000⟩ false true) demoCtx
    demoReceiver ⟨"uatom", 1000⟩ [] ⟨50, 950, [⟨"uatom", 50⟩], ⟨"uatom", 950⟩⟩ "send failed"
    (by decide) (by decide) (by decide) (by decide)

/-- Below `2^24` in absolute value the conversion to `float32` is exact. -/
theorem float32OfInt64_exact (v : Int) (h : v.natAbs < 2 ^ 24) : float32OfInt64 v = v := by
  unfold float32OfInt64
  rw [if_pos ((bitLen_le_iff v 24).mpr h)]

/-- C16 (as stated) fails: with amount 1000 and ratio 0.05 the call succeeds,
the coin passed to `SendTransfer` carries the forwarded amount 950, and the
gauge carries 1000, the whole token amount (which `float32` represents
exactly). -/
theorem C16_counterexample :
    (ForwardTransferPacket (demoKeeper ⟨50000000000000000⟩ false false) demoCtx
        demoReceiver ⟨"uatom", 1000⟩ []).outcome = .nil
    ∧ (ForwardTransferPacket (demoKeeper ⟨50000000000000000⟩ false false) demoCtx
        demoReceiver ⟨"uatom", 1000⟩ []).metrics =
        [Metric.SetGaugeWithLabels ["tx", "msg", "ibc", "transfer"] 1000
           [⟨"denom", "uatom"⟩],
         Metric.IncrCounterWithLabels ["ibc", "router", "send"] 1 []]
    ∧ Call.SendTransfer "transfer" "channel-0" ⟨"uatom", 950⟩ [1, 2, 3] "dest" ⟨0, 0⟩
        1800000000000
      ∈ (ForwardTransferPacket (demoKeeper ⟨50000000000000000⟩ false false) demoCtx
          demoReceiver ⟨"uatom", 1000⟩ []).calls
    ∧ (1000 : Int) ≠ 1000 - 50 := by
  decide

/-- C16 (amended): on every successful call the telemetry is one gauge followed
by one counter increment; the gauge is labelled with the token's denomination
and its value is `float32(token.Amount)`, the whole token amount (before the
fee is deducted) rounded to `float32`, which is `token.Amount` itself below
`2^24`; the coin passed to `SendTransfer` carries the forwarded amount
`token.Amount - feeAmount`. -/
theorem C16_gauge_carries_token_amount {σ : Type} (k : Keeper σ) (ctx : Context σ)
    (pr : ParsedReceiver) (token : Coin) (labels : List Label)
    (hok : (ForwardTransferPacket k ctx pr token labels).outcome = .nil) :
    ∃ s, splitToken (k.GetFeePercentage ctx) token = .ok s
      ∧ (ForwardTransferPacket k ctx pr token labels).metrics =
          [Metric.SetGaugeWithLabels ["tx", "msg", "ibc", "transfer"]
             (float32OfInt64 token.Amount) [⟨LabelDenom, token.Denom⟩],
           Metric.IncrCounterWithLabels ["ibc", k.ModuleName, "send"] 1 labels]
      ∧ Call.SendTransfer pr.Port pr.Channel ⟨token.Denom, token.Amount - s.feeAmount⟩
          pr.ReceiverAddress pr.FinalDestination ⟨0, 0⟩ (TransferDefaultTimeout ctx)
        ∈ (ForwardTransferPacket k ctx pr token labels).calls
      ∧ (token.Amount.natAbs < 2 ^ 24 → float32OfInt64 token.Amount = token.Amount) := by
  cases hs : splitToken (k.GetFeePercentage ctx) token with
  | error p =>
    rw [(ForwardTransferPacket_panic k ctx pr token labels p hs).2] at hok
    simp at hok
  | ok s =>
    refine ⟨s, rfl, ?_⟩
    obtain ⟨_, _, _, hpc, _, _⟩ := splitToken_ok _ _ _ hs
    have hreach : IntIsPositive s.feeAmount = false
        ∨ (k.FundCommunityPool ctx s.feeCoins pr.ReceiverAddress).2 = none := by
      rcases ForwardTransferPacket_calls k ctx pr token labels s hs with
        ⟨h, _⟩ | ⟨_, e1, _, _, ho⟩ | ⟨_, h, _⟩
      · exact Or.inl h
      · rw [ho] at hok
        simp at hok
      · exact Or.inr h
    have hmem : Call.SendTransfer pr.Port pr.Channel ⟨token.Denom, token.Amount - s.feeAmount⟩
        pr.ReceiverAddress pr.FinalDestination ⟨0, 0⟩ (TransferDefaultTimeout ctx)
        ∈ (ForwardTransferPacket k ctx pr token labels).calls := by
      rcases ForwardTransferPacket_calls k ctx pr token labels s hs with
        ⟨_, h⟩ | ⟨_, e1, _, _, ho⟩ | ⟨_, _, h⟩
      · rw [h, hpc]; simp
      · rw [ho] at hok
        simp at hok
      · rw [h, hpc]; simp
    obtain ⟨_, h2, h3⟩ := ForwardTransferPacket_sent k ctx pr token labels s hs hreach
    rw [hok] at h2
    refine ⟨?_, hmem, float32OfInt64_exact token.Amount⟩
    rw [h3]
    cases hsend : (k.SendTransfer ⟨ctx.BlockTime, (payFees k ctx pr s).1⟩ pr.Port pr.Channel
        s.packetCoin pr.ReceiverAddress pr.FinalDestination ⟨0, 0⟩
        (TransferDefaultTimeout ctx)).2 with
    | some e =>
      rw [hsend] at h2
      simp at h2
    | none =>
      rw [hsend] at h2
      simp only at h2 ⊢
      unfold IntInt64 at h2 ⊢
      split_ifs at h2 ⊢ with hr
      rfl

/-- C16 (amended) at amount 16777217 and ratio 0.00000006: the fee is 1, the
forwarded amount is 16777216, and the gauge carries `float32(16777217)`, which
is 16777216. -/
theorem C16_witness :
    ∃ s, splitToken ((demoKeeper ⟨60000000000⟩ false false).GetFeePercentage demoCtx)
        ⟨"uatom", 16777217⟩ = .ok s
      ∧ (ForwardTransferPacket (demoKeeper ⟨60000000000⟩ false false) demoCtx
          demoReceiver ⟨"uatom", 16777217⟩ []).metrics =
          [Metric.SetGaugeWithLabels ["tx", "msg", "ibc", "transfer"]
             (float32OfInt64 (Coin.mk "uatom" 16777217).Amount)
             [⟨LabelDenom, (Coin.mk "uatom" 16777217).Denom⟩],
           Metric.IncrCounterWithLabels
             ["ibc", (demoKeeper ⟨60000000000⟩ false false).ModuleName, "send"] 1 []]
      ∧ Call.SendTransfer demoReceiver.Port demoReceiver.Channel
          ⟨(Coin.mk "uatom" 16777217).Denom, (Coin.mk "uatom" 16777217).Amount - s.feeAmount⟩
          demoReceiver.ReceiverAddress demoReceiver.FinalDestination ⟨0, 0⟩
          (TransferDefaultTimeout demoCtx)
        ∈ (ForwardTransferPacket (demoKeeper ⟨60000000000⟩ false false) demoCtx
            demoReceiver ⟨"uatom", 16777217⟩ []).calls
      ∧ ((Coin.mk "uatom" 16777217).Amount.natAbs < 2 ^ 24 →
          float32OfInt64 (Coin.mk "uatom" 16777217).Amount
            = (Coin.mk "uatom" 16777217).Amount) :=
  C16_gauge_carries_token_amount (demoKeeper ⟨60000000000⟩ false false) demoCtx
    demoReceiver ⟨"uatom", 16777217⟩ [] (by decide)

/-! ## Call traces and aborts -/

/-- C18 (as stated) fails: with amount 4 and ratio 1.5 the packet amount is -2,
the packet coin cannot be constructed, and the call trace is empty, which is
none of `[SendTransfer]`, `[FundCommunityPool, SendTransfer]` and
`[FundCommunityPool]`. -/
theorem C18_counterexample :
    (ForwardTransferPacket (demoKeeper ⟨1500000000000000000⟩ false false) demoCtx
        demoReceiver ⟨"uatom", 4⟩ []).calls = []
    ∧ ∀ c1 c2 : Call,
        (ForwardTransferPacket (demoKeeper ⟨1500000000000000000⟩ false false) demoCtx
          demoReceiver ⟨"uatom", 4⟩ []).calls ≠ [c1]
        ∧ (ForwardTransferPacket (demoKeeper ⟨1500000000000000000⟩ false false) demoCtx
          demoReceiver ⟨"uatom", 4⟩ []).calls ≠ [c1, c2] := by
  have h : (ForwardTransferPacket (demoKeeper ⟨1500000000000000000⟩ false false) demoCtx
      demoReceiver ⟨"uatom", 4⟩ []).calls = [] := by decide
  refine ⟨h, ?_⟩
  intro c1 c2
  rw [h]
  simp

/-- C18 (amended): in every invocation each collaborator is called at most
once, and the call trace is one of: empty (exactly when the coins cannot be
constructed and the call panics), `[SendTransfer]`, `[FundCommunityPool,
SendTransfer]` with the funding first, or `[FundCommunityPool]` alone with an
error returned (the funding failed). -/
theorem C18_call_traces {σ : Type} (k : Keeper σ) (ctx : Context σ)
    (pr : ParsedReceiver) (token : Coin) (labels : List Label) :
    ((ForwardTransferPacket k ctx pr token labels).calls.countP Call.isFundCommunityPool ≤ 1
      ∧ (ForwardTransferPacket k ctx pr token labels).calls.countP Call.isSendTransfer ≤ 1)
    ∧ (((ForwardTransferPacket k ctx pr token labels).calls = []
          ∧ ∃ p, splitToken (k.GetFeePercentage ctx) token = .error p
            ∧ (ForwardTransferPacket k ctx pr token labels).outcome = .panic p)
      ∨ (∃ send, send.isSendTransfer = true
          ∧ (ForwardTransferPacket k ctx pr token labels).calls = [send])
      ∨ (∃ fund send, fund.isFundCommunityPool = true ∧ send.isSendTransfer = true
          ∧ (ForwardTransferPacket k ctx pr token labels).calls = [fund, send])
      ∨ (∃ fund e, fund.isFundCommunityPool = true
          ∧ (ForwardTransferPacket k ctx pr token labels).calls = [fund]
          ∧ (ForwardTransferPacket k ctx pr token labels).outcome
              = .error (Wrapf .ErrInsufficientFunds e))) := by
  cases hs : splitToken (k.GetFeePercentage ctx) token with
  | error p =>
    obtain ⟨h1, h2⟩ := ForwardTransferPacket_panic k ctx pr token labels p hs
    rw [h1]
    exact ⟨by simp, Or.inl ⟨rfl, p, rfl, h2⟩⟩
  | ok s =>
    rcases ForwardTransferPacket_calls k ctx pr token labels s hs with
      ⟨_, h⟩ | ⟨_, e1, _, h, ho⟩ | ⟨_, _, h⟩
    · rw [h]
      refine ⟨by simp [Call.isFundCommunityPool, Call.isSendTransfer], ?_⟩
      refine Or.inr (Or.inl ⟨_, ?_, rfl⟩)
      rfl
    · rw [h]
      refine ⟨by simp [Call.isFundCommunityPool, Call.isSendTransfer], ?_⟩
      refine Or.inr (Or.inr (Or.inr ⟨_, e1, ?_, rfl, ho⟩))
      rfl
    · rw [h]
      refine ⟨by simp [Call.isFundCommunityPool, Call.isSendTransfer, List.countP_cons], ?_⟩
      refine Or.inr (Or.inr (Or.inl ⟨_, _, ?_, ?_, rfl⟩)) <;> rfl

set_option maxRecDepth 8000 in
/-- C20 (as stated) fails: with amount `2^255 - 1` and ratio -1 the computed fee
is `-(2^255 - 1)`, negative, and the call aborts in the subtraction
`token.Amount.Sub(feeAmount)`, whose result leaves the range of `sdk.Int`,
before either coin is constructed. -/
theorem C20_counterexample :
    feeAmountOf ⟨-1000000000000000000⟩ 57896044618658097711785492504343953926634992332820282019728792003956564819967 = .ok (-57896044618658097711785492504343953926634992332820282019728792003956564819967)
    ∧ (-57896044618658097711785492504343953926634992332820282019728792003956564819967 : Int) < 0
    ∧ IntSub 57896044618658097711785492504343953926634992332820282019728792003956564819967 (-57896044618658097711785492504343953926634992332820282019728792003956564819967) = .error .intOverflow
    ∧ (ForwardTransferPacket (demoKeeper ⟨-1000000000000000000⟩ false false) demoCtx
        demoReceiver ⟨"uatom", 57896044618658097711785492504343953926634992332820282019728792003956564819967⟩ []).outcome = .panic .intOverflow
    ∧ (ForwardTransferPacket (demoKeeper ⟨-1000000000000000000⟩ false false) demoCtx
        demoReceiver ⟨"uatom", 57896044618658097711785492504343953926634992332820282019728792003956564819967⟩ []).calls = [] := by
  decide

/-- With a computed fee that is negative or above the token amount, the first
four statements panic: in the subtraction exactly when its result leaves the
range, otherwise in the construction of the fee coin (invalid denomination or
negative fee) or of the packet coin (negative packet amount). -/
theorem splitToken_bad_fee (fp : Dec) (token : Coin) (fee : Int)
    (hfee : feeAmountOf fp token.Amount = .ok fee)
    (hbad : fee < 0 ∨ token.Amount < fee) :
    splitToken fp token = .error
      (if maxBitLen < bitLen (token.Amount - fee) then .intOverflow
       else if ValidateDenom token.Denom = false then .invalidDenom token.Denom
       else if fee < 0 then .negativeCoinAmount fee
       else .negativeCoinAmount (token.Amount - fee)) := by
  unfold splitToken
  rw [splitAmounts_eq_feeAmountOf, hfee]
  simp only
  unfold IntSub
  simp only
  by_cases hov : bitLen (token.Amount - fee) > maxBitLen
  · have hov2 : maxBitLen < bitLen (token.Amount - fee) := hov
    simp [hov2, bind, Except.bind]
  · have hov2 : ¬ (maxBitLen < bitLen (token.Amount - fee)) := hov
    simp only [hov, hov2, if_false, bind, Except.bind]
    unfold NewCoin
    by_cases hd : ValidateDenom token.Denom = false
    · simp [hd]
    · by_cases hneg : fee < 0
      · simp [hd, hneg]
      · have hlt : token.Amount - fee < 0 := by omega
        simp [hd, hneg, hlt]

/-- C20 (amended): whenever the computed fee is negative or exceeds the token
amount, `ForwardTransferPacket` panics before calling the funder or
`SendTransfer`: no call is made, no telemetry is emitted and the store is
unchanged. The panic is raised by the subtraction exactly when
`token.Amount - fee` leaves the range of `sdk.Int`; otherwise it is raised by
the construction of the fee coin (invalid denomination, or negative fee) or,
when the fee coin is constructed, by the construction of the packet coin
(negative packet amount). -/
theorem C20_abort_before_collaborators {σ : Type} (k : Keeper σ) (ctx : Context σ)
    (pr : ParsedReceiver) (token : Coin) (labels : List Label) (fee : Int)
    (hfee : feeAmountOf (k.GetFeePercentage ctx) token.Amount = .ok fee)
    (hbad : fee < 0 ∨ token.Amount < fee) :
    (ForwardTransferPacket k ctx pr token labels).calls = []
    ∧ (ForwardTransferPacket k ctx pr token labels).metrics = []
    ∧ (ForwardTransferPacket k ctx pr token labels).store = ctx.store
    ∧ (maxBitLen < bitLen (token.Amount - fee) →
        (ForwardTransferPacket k ctx pr token labels).outcome = .panic .intOverflow)
    ∧ (bitLen (token.Amount - fee) ≤ maxBitLen → ValidateDenom token.Denom = false →
        (ForwardTransferPacket k ctx pr token labels).outcome
          = .panic (.invalidDenom token.Denom))
    ∧ (bitLen (token.Amount - fee) ≤ maxBitLen → ValidateDenom token.Denom = true →
        fee < 0 →
        (ForwardTransferPacket k ctx pr token labels).outcome
          = .panic (.negativeCoinAmount fee))
    ∧ (bitLen (token.Amount - fee) ≤ maxBitLen → ValidateDenom token.Denom = true →
        0 ≤ fee →
        (ForwardTransferPacket k ctx pr token labels).outcome
          = .panic (.negativeCoinAmount (token.Amount - fee))) := by
  have hs := splitToken_bad_fee _ token fee hfee hbad
  have hrun : ForwardTransferPacket k ctx pr token labels = ⟨ctx.store, [], [], .panic
      (if maxBitLen < bitLen (token.Amount - fee) then .intOverflow
       else if ValidateDenom token.Denom = false then .invalidDenom token.Denom
       else if fee < 0 then .negativeCoinAmount fee
       else .negativeCoinAmount (token.Amount - fee))⟩ := by
    unfold ForwardTransferPacket
    simp only [hs]
  rw [hrun]
  refine ⟨rfl, rfl, rfl, ?_, ?_, ?_, ?_⟩
  · intro h
    simp [h]
  · intro h hd
    simp [not_lt.mpr h, hd]
  · intro h hd hneg
    simp [not_lt.mpr h, hd, hneg]
  · intro h hd hpos
    simp [not_lt.mpr h, hd, not_lt.mpr hpos]

/-- C20 (amended) at amount 10 and ratio 2: the fee is 20, above the amount,
the subtraction stays in range and the packet coin is refused. -/
theorem C20_witness :
    (ForwardTransferPacket (demoKeeper ⟨2000000000000000000⟩ false false) demoCtx
        demoReceiver ⟨"uatom", 10⟩ []).calls = []
    ∧ (ForwardTransferPacket (demoKeeper ⟨2000000000000000000⟩ false false) demoCtx
        demoReceiver ⟨"uatom", 10⟩ []).metrics = []
    ∧ (ForwardTransferPacket (demoKeeper ⟨2000000000000000000⟩ false false) demoCtx
        demoReceiver ⟨"uatom", 10⟩ []).store = demoCtx.store
    ∧ (maxBitLen < bitLen ((Coin.mk "uatom" 10).Amount - 20) →
        (ForwardTransferPacket (demoKeeper ⟨2000000000000000000⟩ false false) demoCtx
          demoReceiver ⟨"uatom", 10⟩ []).outcome = .panic .intOverflow)
    ∧ (bitLen ((Coin.mk "uatom" 10).Amount - 20) ≤ maxBitLen →
        ValidateDenom (Coin.mk "uatom" 10).Denom = false →
        (ForwardTransferPacket (demoKeeper ⟨2000000000000000000⟩ false false) demoCtx
          demoReceiver ⟨"uatom", 10⟩ []).outcome
          = .panic (.invalidDenom (Coin.mk "uatom" 10).Denom))
    ∧ (bitLen ((Coin.mk "uatom" 10).Amount - 20) ≤ maxBitLen →
        ValidateDenom (Coin.mk "uatom" 10).Denom = true → (20 : Int) < 0 →
        (ForwardTransferPacket (demoKeeper ⟨2000000000000000000⟩ false false) demoCtx
          demoReceiver ⟨"uatom", 10⟩ []).outcome = .panic (.negativeCoinAmount 20))
    ∧ (bitLen ((Coin.mk "uatom" 10).Amount - 20) ≤ maxBitLen →
        ValidateDenom (Coin.mk "uatom" 10).Denom = true → (0 : Int) ≤ 20 →
        (ForwardTransferPacket (demoKeeper ⟨2000000000000000000⟩ false false) demoCtx
          demoReceiver ⟨"uatom", 10⟩ []).outcome
          = .panic (.negativeCoinAmount ((Coin.mk "uatom" 10).Amount - 20))) :=
  C20_abort_before_collaborators (demoKeeper ⟨2000000000000000000⟩ false false) demoCtx
    demoReceiver ⟨"uatom", 10⟩ [] 20 (by decide) (Or.inr (by decide))

/-! ## The wrapped error message -/

theorem doPrintfAux_no_percent (fuel : Nat) : ∀ l : List Char, '%' ∉ l →
    l.length ≤ fuel → doPrintfAux fuel l = l := by
  induction fuel with
  | zero =>
    intro l _ hl
    have h0 : l = [] := List.length_eq_zero.mp (by omega)
    subst h0
    rfl
  | succ fuel ih =>
    intro l hp hl
    cases l with
    | nil => rfl
    | cons c cs =>
      simp only [List.mem_cons, not_or] at hp
      have hc : (c != '%') = true := by simpa using fun e => hp.1 e.symm
      simp only [List.length_cons] at hl
      simp only [doPrintfAux, hc, if_true]
      rw [ih cs hp.2 (by omega)]

/-- A message without `%` is rendered unchanged. -/
theorem Sprintf_no_percent (format : String) (h : '%' ∉ format.data) :
    Sprintf format = format := by
  unfold Sprintf
  rw [doPrintfAux_no_percent _ _ h (le_refl _)]

/-- C19 fails on the code: the collaborator's message is passed to `Wrapf` as
the format string. With the funder (or `SendTransfer`) failing with the message
`need 5% of amount`, the returned error is the insufficient-funds error with
message `need 5%!o(MISSING)f amount: insufficient funds`: the text after the
`%` is read as a formatting directive and the original message is lost. -/
theorem C19_percent_in_message_is_rewritten :
    (ForwardTransferPacket (demoKeeperMsg ⟨50000000000000000⟩ (some "need 5% of amount") none)
        demoCtx demoReceiver ⟨"uatom", 1000⟩ []).outcome
      = .error (Wrapf .ErrInsufficientFunds "need 5% of amount")
    ∧ (ForwardTransferPacket (demoKeeperMsg ⟨50000000000000000⟩ none (some "need 5% of amount"))
        demoCtx demoReceiver ⟨"uatom", 1000⟩ []).outcome
      = .error (Wrapf .ErrInsufficientFunds "need 5% of amount")
    ∧ (Wrapf .ErrInsufficientFunds "need 5% of amount").parent = .ErrInsufficientFunds
    ∧ (Wrapf .ErrInsufficientFunds "need 5% of amount").Error
      = "need 5%!o(MISSING)f amount: insufficient funds"
    ∧ (Wrapf .ErrInsufficientFunds "need 5% of amount").Error
      ≠ "need 5% of amount" ++ ": " ++ "insufficient funds" := by
  decide

/-! ### The iteration bound of the rendering loop is never reached -/

theorem parsenumAux_length : ∀ (w : List Char) (n : Nat) (b : Bool) (r : Nat × Bool × List Char),
    parsenumAux w n b = some r → r.2.2.length ≤ w.length := by
  intro w
  induction w with
  | nil =>
    intro n b r h
    simp only [parsenumAux, Option.some.injEq] at h
    subst h
    simp
  | cons c cs ih =>
    intro n b r h
    unfold parsenumAux at h
    split_ifs at h with h1 h2
    · have := ih _ _ r h
      simp only [List.length_cons]
      omega
    · simp only [Option.some.injEq] at h
      subst h
      simp

theorem parsenum_length (w : List Char) : (parsenum w).2.2.length ≤ w.length := by
  unfold parsenum
  cases h : parsenumAux w 0 false with
  | none => simp
  | some r => exact parsenumAux_length w 0 false r h

theorem dropWhile_length_le (f : Char → Bool) (l : List Char) :
    (l.dropWhile f).length ≤ l.length := by
  induction l with
  | nil => simp
  | cons c cs ih =>
    simp only [List.dropWhile]
    split
    · simp only [List.length_cons]; omega
    · simp

theorem parseArgNumber_length (l : List Char) : (parseArgNumber l).2.length ≤ l.length := by
  unfold parseArgNumber
  split_ifs
  · simp
  · have hd := dropWhile_length_le (fun c => c != ']') l
    split
    · simp
    · rename_i x following heq
      rw [heq] at hd
      simp only [List.length_cons] at hd
      simp only
      omega

theorem argNumber_length (l : List Char) (g : Bool) : (argNumber l g).1.length ≤ l.length := by
  unfold argNumber
  split
  · have := parseArgNumber_length ‹List Char›
    simp only [List.length_cons]
    omega
  · simp

theorem widthStep_length (a2 : List Char × Bool × Bool) :
    (widthStep a2).2.1.length ≤ a2.1.length := by
  unfold widthStep
  split
  · rename_i rest1 heq
    rw [heq]
    simp
  · exact parsenum_length _

theorem precisionStep_length (w : List Char × List Char × Bool × Bool) :
    (precisionStep w).2.1.length ≤ w.2.1.length := by
  unfold precisionStep
  split
  · rename_i rest1 heq
    rw [heq]
    have ha := argNumber_length rest1 (w.2.2.2 && !w.2.2.1)
    simp only
    split
    · rename_i rest2 heq2
      rw [heq2] at ha
      simp only [List.length_cons] at ha ⊢
      omega
    · have hp := parsenum_length (argNumber rest1 (w.2.2.2 && !w.2.2.1)).1
      simp only [List.length_cons]
      omega
  · simp

theorem indexStep_length (pr : List Char × List Char × Bool × Bool) :
    (indexStep pr).1.length ≤ pr.2.1.length := by
  unfold indexStep
  split_ifs
  · simp
  · exact argNumber_length _ _

theorem verbOut_length (written : List Char) (a5 : List Char × Bool × Bool)
    (out rest : List Char) (h : verbOut written a5 = (out, some rest)) :
    rest.length < a5.1.length := by
  unfold verbOut at h
  split at h
  · simp at h
  · rename_i verb rest5 heq
    rw [heq]
    split_ifs at h <;>
      (simp only [Prod.mk.injEq, Option.some.injEq] at h
       rw [← h.2]
       simp)

theorem verbStep_length (cs out rest : List Char) (h : verbStep cs = (out, some rest)) :
    rest.length ≤ cs.length := by
  unfold verbStep at h
  simp only at h
  have h1 := dropWhile_length_le isFlag cs
  have h2 := argNumber_length (cs.dropWhile isFlag) true
  have h3 := widthStep_length (argNumber (cs.dropWhile isFlag) true)
  have h4 := precisionStep_length (widthStep (argNumber (cs.dropWhile isFlag) true))
  have h5 := indexStep_length
    (precisionStep (widthStep (argNumber (cs.dropWhile isFlag) true)))
  have h6 := verbOut_length _ _ out rest h
  omega

theorem doPrintfAux_fuel (fuel : Nat) : ∀ (fuel2 : Nat) (l : List Char),
    l.length ≤ fuel → l.length ≤ fuel2 → doPrintfAux fuel l = doPrintfAux fuel2 l := by
  induction fuel with
  | zero =>
    intro fuel2 l h1 _
    have h0 : l = [] := List.length_eq_zero.mp (by omega)
    subst h0
    cases fuel2 <;> rfl
  | succ fuel ih =>
    intro fuel2 l h1 h2
    cases l with
    | nil => cases fuel2 <;> rfl
    | cons c cs =>
      simp only [List.length_cons] at h1 h2
      cases fuel2 with
      | zero => omega
      | succ fuel2 =>
        simp only [doPrintfAux]
        split_ifs
        · rw [ih fuel2 cs (by omega) (by omega)]
        · cases hv : verbStep cs with
          | mk out r =>
            cases r with
            | none => rfl
            | some rest =>
              have hl := verbStep_length cs out rest hv
              simp only
              rw [ih fuel2 rest (by omega) (by omega)]

/-- The rendering does not depend on the iteration bound: any bound of at least
the length of the format gives the same text. -/
theorem Sprintf_fuel (format : String) (fuel : Nat) (h : format.data.length ≤ fuel) :
    Sprintf format = String.mk (doPrintfAux fuel format.data) := by
  unfold Sprintf
  rw [doPrintfAux_fuel _ fuel format.data (le_refl _) h]

/-! ## The address codec: the string form of a decoded address -/

theorem extractBits_append (toBits : Nat) (fuel : Nat) : ∀ (b rem : Nat) (rg : List Nat)
    (nb f : Nat),
    extractBits toBits fuel b rem ⟨rg, nb, f⟩ =
      ⟨rg ++ (extractBits toBits fuel b rem ⟨[], nb, f⟩).regrouped,
       (extractBits toBits fuel b rem ⟨[], nb, f⟩).nextByte,
       (extractBits toBits fuel b rem ⟨[], nb, f⟩).filledBits⟩ := by
  induction fuel with
  | zero => intro b rem rg nb f; simp [extractBits]
  | succ fuel ih =>
    intro b rem rg nb f
    by_cases hr : rem = 0
    · simp [extractBits, hr]
    · by_cases hfull : f + (if toBits - f < rem then toBits - f else rem) = toBits
      · simp only [extractBits, hr, if_false, hfull, if_true]
        rw [ih _ _ (rg ++ _) 0 0, ih _ _ ([] ++ _) 0 0]
        simp
      · simp only [extractBits, hr, if_false, hfull]
        rw [ih _ _ rg]

set_option maxRecDepth 100000 in
theorem stepCheckAll_5_8 : stepCheckAll 8 5 = true := by
  decide!

set_option maxRecDepth 100000 in
theorem stepCheckAll_8_5 : stepCheckAll 5 8 = true := by
  decide!

theorem stepCheck_of_all (toBits fromBits : Nat) (h : stepCheckAll toBits fromBits = true)
    (f nb x : Nat) (hf : f < toBits) (hnb : nb < 2 ^ f) (hx : x < 2 ^ fromBits) :
    stepCheck toBits fromBits f nb x = true := by
  unfold stepCheckAll at h
  simp only [List.all_eq_true, List.mem_range] at h
  exact h f hf nb hnb x hx

theorem foldl_groups (w : Nat) (m : List Nat) : ∀ a : Nat,
    m.foldl (fun acc x => acc * 2 ^ w + x) a
      = a * 2 ^ (w * m.length) + m.foldl (fun acc x => acc * 2 ^ w + x) 0 := by
  induction m with
  | nil => intro a; simp
  | cons y ys ih =>
    intro a
    simp only [List.foldl_cons, List.length_cons]
    rw [ih (a * 2 ^ w + y), ih (0 * 2 ^ w + y)]
    rw [Nat.mul_succ, pow_add]
    ring

theorem groupsValue_append (w : Nat) (l m : List Nat) :
    groupsValue w (l ++ m) = groupsValue w l * 2 ^ (w * m.length) + groupsValue w m := by
  unfold groupsValue
  rw [List.foldl_append, foldl_groups]

/-- One input value keeps the invariant of `ConvertBits`. -/
theorem RegroupInv_step (toBits fromBits : Nat) (hall : stepCheckAll toBits fromBits = true)
    (st : Regroup) (n len x : Nat) (hinv : RegroupInv toBits st n len)
    (hx : x < 2 ^ fromBits) :
    RegroupInv toBits
      (extractBits toBits fromBits ((x <<< (8 - fromBits)) % 256) fromBits st)
      (n * 2 ^ fromBits + x) (len + fromBits) := by
  obtain ⟨rg, nb, f⟩ := st
  obtain ⟨h1, h2, h3, h4, h5⟩ := hinv
  simp only at h1 h2 h3 h4 h5
  have hc := stepCheck_of_all toBits fromBits hall f nb x h4 h3 hx
  rw [extractBits_append]
  unfold stepCheck at hc
  generalize extractBits toBits fromBits ((x <<< (8 - fromBits)) % 256) fromBits ⟨[], nb, f⟩
    = r at hc ⊢
  obtain ⟨out, nb1, f1⟩ := r
  simp only [Bool.and_eq_true, beq_iff_eq, decide_eq_true_eq, List.all_eq_true] at hc
  obtain ⟨⟨⟨⟨c1, c2⟩, c3⟩, c4⟩, c5⟩ := hc
  refine ⟨?_, ?_, c3, c4, ?_⟩
  · simp only
    rw [groupsValue_append]
    have hpow : 2 ^ (toBits * out.length) * 2 ^ f1 = 2 ^ f * 2 ^ fromBits := by
      rw [← pow_add, ← pow_add, c2]
    calc (groupsValue toBits rg * 2 ^ (toBits * out.length) + groupsValue toBits out) * 2 ^ f1
          + nb1
        = groupsValue toBits rg * (2 ^ (toBits * out.length) * 2 ^ f1)
          + (groupsValue toBits out * 2 ^ f1 + nb1) := by ring
      _ = groupsValue toBits rg * (2 ^ f * 2 ^ fromBits) + (nb * 2 ^ fromBits + x) := by
          rw [hpow, c1]
      _ = (groupsValue toBits rg * 2 ^ f + nb) * 2 ^ fromBits + x := by ring
      _ = n * 2 ^ fromBits + x := by rw [h1]
  · simp only [List.length_append]
    rw [Nat.mul_add]
    omega
  · intro o ho
    simp only [List.mem_append] at ho
    rcases ho with ho | ho
    · exact h5 o ho
    · exact c5 o ho

/-- The loop of `ConvertBits` over the whole input keeps the invariant. -/
theorem RegroupInv_foldl (toBits fromBits : Nat) (hall : stepCheckAll toBits fromBits = true)
    (data : List Nat) : ∀ (st : Regroup) (n len : Nat), RegroupInv toBits st n len →
    (∀ x ∈ data, x < 2 ^ fromBits) →
    RegroupInv toBits
      (data.foldl (fun st b =>
        extractBits toBits fromBits ((b <<< (8 - fromBits)) % 256) fromBits st) st)
      (data.foldl (fun acc x => acc * 2 ^ fromBits + x) n)
      (len + fromBits * data.length) := by
  induction data with
  | nil => intro st n len h _; simpa using h
  | cons x xs ih =>
    intro st n len h hx
    simp only [List.foldl_cons, List.length_cons]
    have h1 := RegroupInv_step toBits fromBits hall st n len x h
      (hx x (List.mem_cons_self _ _))
    have h2 := ih _ _ _ h1 (fun y hy => hx y (List.mem_cons_of_mem _ hy))
    have e : len + fromBits + fromBits * xs.length = len + fromBits * (xs.length + 1) := by
      rw [Nat.mul_succ]; omega
    rw [← e]
    exact h2

theorem groupsValue_concat (w : Nat) (l : List Nat) (x : Nat) :
    groupsValue w (l ++ [x]) = groupsValue w l * 2 ^ w + x := by
  unfold groupsValue
  simp [List.foldl_append]

/-- Lists of `w`-bit groups of the same length that spell the same number are
equal. -/
theorem groupsValue_inj (w : Nat) (l1 : List Nat) : ∀ l2 : List Nat,
    l1.length = l2.length → (∀ x ∈ l1, x < 2 ^ w) → (∀ x ∈ l2, x < 2 ^ w) →
    groupsValue w l1 = groupsValue w l2 → l1 = l2 := by
  induction l1 using List.reverseRecOn with
  | nil =>
    intro l2 hlen _ _ _
    simp only [List.length_nil] at hlen
    exact (List.length_eq_zero.mp hlen.symm).symm
  | append_singleton l x ih =>
    intro l2 hlen h1 h2 hv
    rcases List.eq_nil_or_concat l2 with e | ⟨m, y, e⟩
    · subst e
      simp at hlen
    · subst e
      rw [List.concat_eq_append] at hv h2 hlen
      simp only [List.length_append, List.length_singleton, add_left_inj] at hlen
      rw [groupsValue_concat, groupsValue_concat] at hv
      have hx : x < 2 ^ w := h1 x (by simp)
      have hy : y < 2 ^ w := h2 y (by simp)
      have hpos : 0 < 2 ^ w := Nat.two_pow_pos w
      have e1 : x = y := by
        have h3 := congrArg (fun z => z % 2 ^ w) hv
        simp only [Nat.add_comm (_ * 2 ^ w), Nat.add_mul_mod_self_right,
          Nat.mod_eq_of_lt hx, Nat.mod_eq_of_lt hy] at h3
        exact h3
      have e2 : groupsValue w l = groupsValue w m := by
        subst e1
        have h3 : groupsValue w l * 2 ^ w = groupsValue w m * 2 ^ w := by omega
        exact Nat.eq_of_mul_eq_mul_right hpos h3
      have e3 := ih m hlen (fun z hz => h1 z (by simp [hz])) (fun z hz => h2 z (by simp [hz])) e2
      rw [e3, e1, List.concat_eq_append]

theorem RegroupInv_init (toBits : Nat) (h : 0 < toBits) :
    RegroupInv toBits ⟨[], 0, 0⟩ 0 0 := by
  refine ⟨?_, ?_, ?_, h, ?_⟩ <;> simp [groupsValue]

/-- A successful conversion from 5-bit values to bytes without padding: the
bytes followed by at most four zero bits spell the input. -/
theorem ConvertBits_5_8 (data bz : List Nat) (hdata : ∀ x ∈ data, x < 2 ^ 5)
    (h : ConvertBits data 5 8 false = some bz) :
    ∃ f, f ≤ 4 ∧ groupsValue 8 bz * 2 ^ f = groupsValue 5 data
      ∧ 8 * bz.length + f = 5 * data.length ∧ ∀ o ∈ bz, o < 2 ^ 8 := by
  have hinv := RegroupInv_foldl 8 5 stepCheckAll_5_8 data ⟨[], 0, 0⟩ 0 0
    (RegroupInv_init 8 (by decide)) hdata
  unfold ConvertBits at h
  rw [if_neg (by decide)] at h
  simp only [Bool.false_eq_true, false_and, if_false] at h
  generalize data.foldl (fun st b => extractBits 8 5 ((b <<< (8 - 5)) % 256) 5 st) ⟨[], 0, 0⟩
    = st at h hinv
  obtain ⟨h1, h2, h3, h4, h5⟩ := hinv
  split_ifs at h with hc
  simp only [Option.some.injEq] at h
  subst h
  have hnb : st.filledBits ≤ 4 ∧ st.nextByte = 0 := by
    by_cases hf : st.filledBits = 0
    · rw [hf] at h3
      simp at h3
      omega
    · have hpos : st.filledBits > 0 := by omega
      simp only [hpos, true_and, not_or, not_lt, ne_eq, not_not] at hc
      exact hc
  refine ⟨st.filledBits, hnb.1, ?_, ?_, h5⟩
  · rw [hnb.2] at h1
    simpa [groupsValue] using h1
  · simpa using h2

/-- The conversion from bytes to 5-bit values with padding always succeeds:
its result spells the input followed by at most four zero bits. -/
theorem ConvertBits_8_5 (bz : List Nat) (hbz : ∀ x ∈ bz, x < 2 ^ 8) :
    ∃ d, ConvertBits bz 8 5 true = some d
      ∧ ∃ g, g ≤ 4 ∧ groupsValue 5 d = groupsValue 8 bz * 2 ^ g
        ∧ 5 * d.length = 8 * bz.length + g ∧ ∀ o ∈ d, o < 2 ^ 5 := by
  have hinv := RegroupInv_foldl 5 8 stepCheckAll_8_5 bz ⟨[], 0, 0⟩ 0 0
    (RegroupInv_init 5 (by decide)) hbz
  unfold ConvertBits
  rw [if_neg (by decide)]
  simp only [true_and]
  generalize bz.foldl (fun st b => extractBits 5 8 ((b <<< (8 - 8)) % 256) 8 st) ⟨[], 0, 0⟩
    = st at hinv ⊢
  obtain ⟨rg, nb, f⟩ := st
  obtain ⟨h1, h2, h3, h4, h5⟩ := hinv
  simp only at h1 h2 h3 h4 h5
  simp only [Nat.zero_add] at h2
  have hv : groupsValue 8 bz = bz.foldl (fun acc x => acc * 2 ^ 8 + x) 0 := rfl
  rw [← hv] at h1
  by_cases hf : f = 0
  · subst hf
    simp only [Nat.lt_irrefl, ite_false, gt_iff_lt, false_and, if_false]
    simp only [pow_zero, Nat.lt_one_iff] at h3
    subst h3
    refine ⟨rg, rfl, 0, by omega, ?_, by omega, h5⟩
    simpa using h1
  · have hpos : f > 0 := by omega
    simp only [hpos, if_true, gt_iff_lt, Nat.lt_irrefl, false_and, if_false]
    have hsplit : 2 ^ f * 2 ^ (5 - f) = 2 ^ 5 := by
      rw [← pow_add]
      congr 1
      omega
    have hlt : nb * 2 ^ (5 - f) < 2 ^ 5 := by
      rw [← hsplit]
      exact Nat.mul_lt_mul_of_lt_of_le h3 (le_refl _) (Nat.two_pow_pos _)
    have hshift : (nb <<< (5 - f)) % 256 = nb * 2 ^ (5 - f) := by
      rw [Nat.shiftLeft_eq]
      apply Nat.mod_eq_of_lt
      omega
    rw [hshift]
    refine ⟨_, rfl, 5 - f, by omega, ?_, ?_, ?_⟩
    · rw [groupsValue_concat, ← h1]
      calc groupsValue 5 rg * 2 ^ 5 + nb * 2 ^ (5 - f)
          = groupsValue 5 rg * (2 ^ f * 2 ^ (5 - f)) + nb * 2 ^ (5 - f) := by rw [hsplit]
        _ = (groupsValue 5 rg * 2 ^ f + nb) * 2 ^ (5 - f) := by ring
    · simp only [List.length_append, List.length_singleton]
      omega
    · intro o ho
      simp only [List.mem_append, List.mem_singleton] at ho
      rcases ho with ho | ho
      · exact h5 o ho
      · rw [ho]
        exact hlt

/-- Converting 5-bit values to bytes and back with padding returns the values. -/
theorem ConvertBits_roundtrip (data bz : List Nat) (hdata : ∀ x ∈ data, x < 2 ^ 5)
    (h : ConvertBits data 5 8 false = some bz) :
    ConvertBits bz 8 5 true = some data ∧ ∀ o ∈ bz, o < 2 ^ 8 := by
  obtain ⟨f, hf, hv1, hl1, hb⟩ := ConvertBits_5_8 data bz hdata h
  obtain ⟨d, hd, g, hg, hv2, hl2, ho⟩ := ConvertBits_8_5 bz hb
  have hfg : f = g := by omega
  subst hfg
  have hlen : d.length = data.length := by omega
  have hval : groupsValue 5 d = groupsValue 5 data := by rw [hv2, hv1]
  rw [hd, groupsValue_inj 5 d data hlen ho hdata hval]
  exact ⟨rfl, hb⟩

theorem indexByte_get (l : List Char) (c : Char) : ∀ v, indexByte l c = some v →
    l[v]? = some c ∧ v < l.length := by
  induction l with
  | nil => intro v h; simp [indexByte] at h
  | cons x xs ih =>
    intro v h
    unfold indexByte at h
    split_ifs at h with hx
    · simp only [Option.some.injEq] at h
      subst h
      simp [hx]
    · cases hi : indexByte xs c with
      | none => simp [hi] at h
      | some i =>
        simp only [hi, Option.map_some', Option.some.injEq] at h
        subst h
        obtain ⟨h1, h2⟩ := ih i hi
        refine ⟨?_, ?_⟩
        · rw [List.getElem?_cons_succ]
          exact h1
        · simp only [List.length_cons]
          omega

/-- Characters of the character set are recovered from their positions. -/
theorem toBytes_toChars (cs : List Char) : ∀ vs, toBytes cs = some vs →
    toChars vs = some cs ∧ (∀ v ∈ vs, v < 2 ^ 5) ∧ vs.length = cs.length := by
  induction cs with
  | nil =>
    intro vs h
    simp only [toBytes, Option.some.injEq] at h
    subst h
    simp [toChars]
  | cons c cs ih =>
    intro vs h
    unfold toBytes at h
    cases h1 : indexByte charset c with
    | none => simp [h1] at h
    | some v =>
      cases h2 : toBytes cs with
      | none => simp [h1, h2] at h
      | some ws =>
        simp only [h1, h2, Option.some.injEq] at h
        subst h
        obtain ⟨e1, e2, e3⟩ := ih ws h2
        obtain ⟨g1, g2⟩ := indexByte_get charset c v h1
        have hlen : charset.length = 32 := by decide
        refine ⟨?_, ?_, ?_⟩
        · simp [toChars, g1, e1]
        · intro w hw
          simp only [List.mem_cons] at hw
          rcases hw with hw | hw
          · rw [hw]
            norm_num
            omega
          · exact e2 w hw
        · simp [e3]

/-! ### The checksum is determined by the data it verifies -/

theorem testBit_of_lt (x n j : Nat) (hx : x < 2 ^ n) (hj : n ≤ j) : x.testBit j = false := by
  apply Nat.testBit_lt_two_pow
  exact Nat.lt_of_lt_of_le hx (Nat.pow_le_pow_right (by decide) hj)

theorem xor_shiftRight_of_lt (chk x : Nat) (hx : x < 2 ^ 25) :
    (chk ^^^ x) >>> 25 = chk >>> 25 := by
  apply Nat.eq_of_testBit_eq
  intro i
  simp only [Nat.testBit_shiftRight, Nat.testBit_xor]
  rw [testBit_of_lt x 25 (25 + i) hx (by omega)]
  simp

theorem shiftLeft_xor (a b n : Nat) : (a ^^^ b) <<< n = (a <<< n) ^^^ (b <<< n) := by
  apply Nat.eq_of_testBit_eq
  intro i
  simp only [Nat.testBit_shiftLeft, Nat.testBit_xor]
  by_cases h : i ≥ n <;> simp [h]

theorem xor_and_shiftLeft_of_lt (chk x : Nat) (hx : x < 2 ^ 25) :
    ((chk ^^^ x) &&& 33554431) <<< 5 = ((chk &&& 33554431) <<< 5) ^^^ (x <<< 5) := by
  have hm : x &&& 33554431 = x := Nat.and_pow_two_sub_one_of_lt_two_pow hx
  rw [Nat.and_xor_distrib_right, hm, shiftLeft_xor]

theorem shiftLeft_xor_eq_add (x c : Nat) (hc : c < 2 ^ 5) : (x <<< 5) ^^^ c = x * 32 + c := by
  apply Nat.eq_of_testBit_eq
  intro j
  have e : x * 32 + c = 2 ^ 5 * x + c := by omega
  rw [e, Nat.testBit_mul_pow_two_add x hc j]
  simp only [Nat.testBit_xor, Nat.testBit_shiftLeft]
  by_cases h : j < 5
  · have h2 : ¬ (j ≥ 5) := by omega
    simp [h, h2]
  · have h2 : j ≥ 5 := by omega
    rw [testBit_of_lt c 5 j hc h2]
    simp [h, h2]

/-- One round of the checksum is linear in the low 25 bits of the state and in
the value read. -/
theorem polymodStep_linear (chk x v : Nat) (hx : x < 2 ^ 25) (hv : v < 2 ^ 5) :
    polymodStep (chk ^^^ x) v = polymodStep chk 0 ^^^ (x * 32 + v) := by
  rw [← shiftLeft_xor_eq_add x v hv]
  unfold polymodStep
  simp only [xor_shiftRight_of_lt chk x hx, xor_and_shiftLeft_of_lt chk x hx, Nat.xor_zero]
  generalize (chk &&& 33554431) <<< 5 = a
  generalize x <<< 5 = d
  generalize chk >>> 25 = b
  split_ifs <;> ac_rfl

/-- Six rounds on the checksum values differ from six rounds on zeros by the
number the six values spell. -/
theorem polymod_tail (S c1 c2 c3 c4 c5 c6 : Nat) (h1 : c1 < 2 ^ 5) (h2 : c2 < 2 ^ 5)
    (h3 : c3 < 2 ^ 5) (h4 : c4 < 2 ^ 5) (h5 : c5 < 2 ^ 5) (h6 : c6 < 2 ^ 5) :
    [c1, c2, c3, c4, c5, c6].foldl polymodStep S
      = [0, 0, 0, 0, 0, 0].foldl polymodStep S
        ^^^ (((((c1 * 32 + c2) * 32 + c3) * 32 + c4) * 32 + c5) * 32 + c6) := by
  simp only [List.foldl_cons, List.foldl_nil]
  have e1 : polymodStep S c1 = polymodStep S 0 ^^^ c1 := by
    have h := polymodStep_linear S 0 c1 (by decide) h1
    simpa using h
  rw [e1]
  rw [polymodStep_linear _ c1 c2 (by omega) h2]
  rw [polymodStep_linear _ (c1 * 32 + c2) c3 (by omega) h3]
  rw [polymodStep_linear _ ((c1 * 32 + c2) * 32 + c3) c4 (by omega) h4]
  rw [polymodStep_linear _ (((c1 * 32 + c2) * 32 + c3) * 32 + c4) c5 (by omega) h5]
  rw [polymodStep_linear _ ((((c1 * 32 + c2) * 32 + c3) * 32 + c4) * 32 + c5) c6 (by omega) h6]

theorem and_31 (n : Nat) : n &&& 31 = n % 32 := Nat.and_pow_two_sub_one_eq_mod n 5

/-- A checksum that verifies is the checksum computed for the data. -/
theorem bech32Checksum_of_verify (hrp : List Char) (payload : List Nat)
    (c1 c2 c3 c4 c5 c6 : Nat) (h1 : c1 < 2 ^ 5) (h2 : c2 < 2 ^ 5)
    (h3 : c3 < 2 ^ 5) (h4 : c4 < 2 ^ 5) (h5 : c5 < 2 ^ 5) (h6 : c6 < 2 ^ 5)
    (hv : bech32VerifyChecksum hrp (payload ++ [c1, c2, c3, c4, c5, c6]) = true) :
    bech32Checksum hrp payload = [c1, c2, c3, c4, c5, c6] := by
  unfold bech32VerifyChecksum bech32Polymod at hv
  simp only [beq_iff_eq] at hv
  rw [← List.append_assoc, List.foldl_append, polymod_tail _ c1 c2 c3 c4 c5 c6 h1 h2 h3 h4 h5 h6]
    at hv
  unfold bech32Checksum bech32Polymod
  simp only
  rw [List.foldl_append]
  generalize ([0, 0, 0, 0, 0, 0].foldl polymodStep
    ((bech32HrpExpand hrp ++ payload).foldl polymodStep 1)) = Z at hv ⊢
  have hP : Z ^^^ 1
      = ((((c1 * 32 + c2) * 32 + c3) * 32 + c4) * 32 + c5) * 32 + c6 := by
    rw [← hv, Nat.xor_cancel_left]
  rw [hP]
  simp only [and_31, Nat.shiftRight_eq_div_pow]
  have q1 : (((((c1 * 32 + c2) * 32 + c3) * 32 + c4) * 32 + c5) * 32 + c6) / 2 ^ 25 % 32
      = c1 := by omega
  have q2 : (((((c1 * 32 + c2) * 32 + c3) * 32 + c4) * 32 + c5) * 32 + c6) / 2 ^ 20 % 32
      = c2 := by omega
  have q3 : (((((c1 * 32 + c2) * 32 + c3) * 32 + c4) * 32 + c5) * 32 + c6) / 2 ^ 15 % 32
      = c3 := by omega
  have q4 : (((((c1 * 32 + c2) * 32 + c3) * 32 + c4) * 32 + c5) * 32 + c6) / 2 ^ 10 % 32
      = c4 := by omega
  have q5 : (((((c1 * 32 + c2) * 32 + c3) * 32 + c4) * 32 + c5) * 32 + c6) / 2 ^ 5 % 32
      = c5 := by omega
  have q6 : (((((c1 * 32 + c2) * 32 + c3) * 32 + c4) * 32 + c5) * 32 + c6) / 2 ^ 0 % 32
      = c6 := by omega
  rw [q1, q2, q3, q4, q5, q6]

/-! ### Encoding what was decoded -/

theorem lastIndexByte_split (c : Char) (l : List Char) : ∀ i, lastIndexByte l c = some i →
    l = l.take i ++ c :: l.drop (i + 1) := by
  induction l with
  | nil => intro i h; simp [lastIndexByte] at h
  | cons x xs ih =>
    intro i h
    unfold lastIndexByte at h
    cases hl : lastIndexByte xs c with
    | some j =>
      simp only [hl, Option.some.injEq] at h
      subst h
      have := ih j hl
      simp only [List.take_succ_cons, List.drop_succ_cons, List.cons_append]
      rw [← this]
    | none =>
      simp only [hl] at h
      split_ifs at h with hx
      simp only [Option.some.injEq] at h
      subst h
      simp [hx]

theorem length_six (l : List Nat) (h : l.length = 6) :
    ∃ c1 c2 c3 c4 c5 c6, l = [c1, c2, c3, c4, c5, c6] := by
  rcases l with _ | ⟨c1, _ | ⟨c2, _ | ⟨c3, _ | ⟨c4, _ | ⟨c5, _ | ⟨c6, _ | ⟨c7, t⟩⟩⟩⟩⟩⟩⟩ <;>
    simp at h
  exact ⟨c1, c2, c3, c4, c5, c6, rfl⟩

/-- Encoding the result of a successful decoding gives the input in lower
case; the decoded values are 5-bit values. -/
theorem bech32Encode_of_decode (bech : List Char) (limit : Nat) (hrp : List Char)
    (payload : List Nat) (h : bech32Decode bech limit = some (hrp, payload)) :
    bech32Encode hrp payload = some (bech.map Char.toLower)
    ∧ ∀ v ∈ payload, v < 2 ^ 5 := by
  unfold bech32Decode at h
  simp only at h
  split_ifs at h with h1 h2 h3
  cases hone : lastIndexByte (bech.map Char.toLower) '1' with
  | none => simp [hone] at h
  | some one =>
    simp only [hone] at h
    split_ifs at h with h4
    cases hb : toBytes ((bech.map Char.toLower).drop (one + 1)) with
    | none => simp [hb] at h
    | some decoded =>
      simp only [hb] at h
      split_ifs at h with h5
      simp only [Option.some.injEq, Prod.mk.injEq] at h
      obtain ⟨e1, e2⟩ := h
      have hsplit := lastIndexByte_split '1' _ one hone
      obtain ⟨t1, t2, t3⟩ := toBytes_toChars _ decoded hb
      have hlen : 6 ≤ decoded.length := by
        rw [t3, List.length_drop]
        omega
      have hdec : decoded = payload ++ decoded.drop (decoded.length - 6) := by
        rw [← e2, List.take_append_drop]
      have hcs : (decoded.drop (decoded.length - 6)).length = 6 := by
        rw [List.length_drop]
        omega
      obtain ⟨c1, c2, c3, c4, c5, c6, hc⟩ := length_six _ hcs
      rw [hc] at hdec
      have hall : ∀ v ∈ payload ++ [c1, c2, c3, c4, c5, c6], v < 2 ^ 5 := by
        rw [← hdec]
        exact t2
      have hp : ∀ v ∈ payload, v < 2 ^ 5 := fun v hv => hall v (by simp [hv])
      refine ⟨?_, hp⟩
      rw [hdec] at h5
      have hsum := bech32Checksum_of_verify hrp payload c1 c2 c3 c4 c5 c6
        (hall c1 (by simp)) (hall c2 (by simp)) (hall c3 (by simp)) (hall c4 (by simp))
        (hall c5 (by simp)) (hall c6 (by simp)) (by rw [← e1]; exact h5)
      unfold bech32Encode
      rw [hsum, ← hdec, t1]
      simp only [Option.some.injEq]
      rw [← e1]
      exact hsplit.symm

theorem toUInt8_toNat (n : Nat) (h : n < 2 ^ 8) : (Nat.toUInt8 n).toNat = n := by
  show (UInt8.ofNat n).toNat = n
  simp only [UInt8.toNat, UInt8.ofNat, Fin.ofNat]
  exact Nat.mod_eq_of_lt h

theorem map_toUInt8_toNat (bz : List Nat) (h : ∀ o ∈ bz, o < 2 ^ 8) :
    (bz.map Nat.toUInt8).map UInt8.toNat = bz := by
  induction bz with
  | nil => rfl
  | cons x xs ih =>
    simp only [List.map_cons]
    rw [toUInt8_toNat x (h x (by simp)), ih (fun o ho => h o (by simp [ho]))]

/-- The string form of a decoded address is the decoded string in lower case. -/
theorem AccAddressString_of_decode (pfx a : String) (addr : AccAddress)
    (h : AccAddressFromBech32 pfx a = some addr) :
    AccAddressString pfx addr = some (toLower a) := by
  unfold AccAddressFromBech32 at h
  split_ifs at h with h1
  cases hg : GetFromBech32 a.data pfx.data with
  | none => simp [hg] at h
  | some bz =>
    simp only [hg] at h
    split_ifs at h with h2 h3
    simp only [Option.some.injEq] at h
    unfold GetFromBech32 at hg
    split_ifs at hg with h4
    cases hd : DecodeAndConvert a.data with
    | none => simp [hd] at hg
    | some r =>
      obtain ⟨hrp, bz1⟩ := r
      simp only [hd] at hg
      split_ifs at hg with h5
      simp only [Option.some.injEq] at hg
      subst hg
      simp only [ne_eq, not_not] at h5
      unfold DecodeAndConvert at hd
      cases hb : bech32Decode a.data 1023 with
      | none => simp [hb] at hd
      | some q =>
        obtain ⟨hrp1, payload⟩ := q
        simp only [hb] at hd
        cases hc : ConvertBits payload 5 8 false with
        | none => simp [hc] at hd
        | some conv =>
          simp only [hc, Option.some.injEq, Prod.mk.injEq] at hd
          obtain ⟨e1, e2⟩ := hd
          subst e1 e2
          obtain ⟨henc, hp⟩ := bech32Encode_of_decode a.data 1023 hrp1 payload hb
          obtain ⟨hrt, hbz⟩ := ConvertBits_roundtrip payload conv hp hc
          subst h
          unfold AccAddressString
          have hne : (conv.map Nat.toUInt8).isEmpty = false := by
            cases conv with
            | nil => simp at h2
            | cons x xs => rfl
          rw [hne]
          simp only [Bool.false_eq_true, if_false]
          rw [map_toUInt8_toNat conv hbz]
          unfold ConvertAndEncode
          rw [hrt]
          simp only
          rw [← h5, henc]
          rfl

theorem toLower_of_not_upper (c : Char) (h : c.isUpper = false) : c.toLower = c := by
  unfold Char.isUpper at h
  simp only [Bool.and_eq_false_imp, decide_eq_true_eq, decide_eq_false_iff_not] at h
  have hc : ¬ (c.toNat ≥ 65 ∧ c.toNat ≤ 90) := by
    rintro ⟨h1, h2⟩
    exact h h1 h2
  show (if c.toNat ≥ 65 ∧ c.toNat ≤ 90 then Char.ofNat (c.toNat + 32) else c) = c
  rw [if_neg hc]

theorem map_toLower_of_not_upper (l : List Char) (h : ∀ c ∈ l, c.isUpper = false) :
    l.map Char.toLower = l := by
  induction l with
  | nil => rfl
  | cons x xs ih =>
    simp only [List.map_cons]
    rw [toLower_of_not_upper x (h x (by simp)), ih (fun c hc => h c (by simp [hc]))]

/-! ## Plain addresses -/

theorem toLower_ne_of_upper (c : Char) (h : c.isUpper = true) : c.toLower ≠ c := by
  unfold Char.isUpper at h
  simp only [Bool.and_eq_true, decide_eq_true_eq] at h
  have hc : c.toNat ≥ 65 ∧ c.toNat ≤ 90 := h
  have e : c = Char.ofNat c.toNat := (Char.ofNat_toNat c).symm
  generalize c.toNat = n at hc e
  subst e
  obtain ⟨h1, h2⟩ := hc
  interval_cases n <;> decide

theorem not_upper_of_map_toLower (l : List Char) (h : l.map Char.toLower = l) :
    ∀ c ∈ l, c.isUpper = false := by
  induction l with
  | nil => intro c hc; simp at hc
  | cons x xs ih =>
    simp only [List.map_cons, List.cons.injEq] at h
    intro c hc
    simp only [List.mem_cons] at hc
    rcases hc with hc | hc
    · subst hc
      cases hu : c.isUpper with
      | false => rfl
      | true => exact absurd h.1 (toLower_ne_of_upper c hu)
    · exact ih h.2 c hc

/-- A string is its own lower-case form exactly when it has no upper-case
letter. -/
theorem toLower_eq_self_iff (a : String) :
    toLower a = a ↔ ∀ c ∈ a.data, c.isUpper = false := by
  constructor
  · intro h
    apply not_upper_of_map_toLower
    exact congrArg String.data h
  · intro h
    unfold toLower
    rw [map_toLower_of_not_upper a.data h]

set_option maxRecDepth 100000 in
/-- C9 (as stated) fails: the upper-case spelling of the test address is
non-empty, contains no `|` and no `:` and decodes successfully; the parser
returns it as a plain address, and the string form of the returned address is
the lower-case spelling, not the string that was parsed. -/
theorem C9_counterexample :
    "COSMOS16PLYLPSGXECHAJLTX9YESEQEXZDZUT9G8VLA4K" ≠ ""
    ∧ '|' ∉ "COSMOS16PLYLPSGXECHAJLTX9YESEQEXZDZUT9G8VLA4K".data
    ∧ ':' ∉ "COSMOS16PLYLPSGXECHAJLTX9YESEQEXZDZUT9G8VLA4K".data
    ∧ AccAddressFromBech32 "cosmos" "COSMOS16PLYLPSGXECHAJLTX9YESEQEXZDZUT9G8VLA4K"
      = some [208, 126, 79, 134, 8, 54, 113, 126, 203, 235, 49, 73, 152, 100, 25, 48, 154,
          46, 44, 168]
    ∧ ParseReceiverData (decodeAddressWith "cosmos" (fun _ => "decoding bech32 failed"))
        "COSMOS16PLYLPSGXECHAJLTX9YESEQEXZDZUT9G8VLA4K"
      = .ok ⟨false, [208, 126, 79, 134, 8, 54, 113, 126, 203, 235, 49, 73, 152, 100, 25, 48,
          154, 46, 44, 168], "", "", ""⟩
    ∧ AccAddressString "cosmos" [208, 126, 79, 134, 8, 54, 113, 126, 203, 235, 49, 73, 152,
          100, 25, 48, 154, 46, 44, 168]
      = some "cosmos16plylpsgxechajltx9yeseqexzdzut9g8vla4k"
    ∧ "cosmos16plylpsgxechajltx9yeseqexzdzut9g8vla4k"
      ≠ "COSMOS16PLYLPSGXECHAJLTX9YESEQEXZDZUT9G8VLA4K" := by
  decide

/-- C9 (amended): for every non-empty string `a` without `|` and `:` that the
address codec decodes to `addr`, `ParseReceiverData` succeeds with
`IsTransfer = false`, `ReceiverAddress = addr` and empty forwarding fields; the
string form of the returned address is `a` written in lower case, and so is
`a` itself exactly when `a` contains no upper-case letter. -/
theorem C9_parse_plain_address (pfx : String) (errorText : String → String)
    (a : String) (addr : AccAddress) (hne : a ≠ "")
    (hpipe : '|' ∉ a.data) (hcolon : ':' ∉ a.data)
    (hdec : AccAddressFromBech32 pfx a = some addr) :
    ∃ r, ParseReceiverData (decodeAddressWith pfx errorText) a = .ok r
      ∧ r.IsTransfer = false ∧ r.ReceiverAddress = addr
      ∧ r.Port = "" ∧ r.Channel = "" ∧ r.FinalDestination = ""
      ∧ AccAddressString pfx r.ReceiverAddress = some (toLower a)
      ∧ (AccAddressString pfx r.ReceiverAddress = some a
          ↔ ∀ c ∈ a.data, c.isUpper = false) := by
  have hd : decodeAddressWith pfx errorText a = .ok addr := by
    unfold decodeAddressWith
    rw [hdec]
  have hs := AccAddressString_of_decode pfx a addr hdec
  refine ⟨⟨false, addr, "", "", ""⟩,
    ParseReceiverData_plain _ a addr hne hpipe hcolon hd, rfl, rfl, rfl, rfl, rfl, hs, ?_⟩
  rw [hs, ← toLower_eq_self_iff a]
  simp only [Option.some.injEq]

set_option maxRecDepth 100000 in
/-- C9 (amended) at the test address `cosmos16plylpsgxechajltx9yeseqexzdzut9g8vla4k`. -/
theorem C9_witness :
    ∃ r, ParseReceiverData (decodeAddressWith "cosmos" (fun _ => "decoding bech32 failed"))
        "cosmos16plylpsgxechajltx9yeseqexzdzut9g8vla4k" = .ok r
      ∧ r.IsTransfer = false
      ∧ r.ReceiverAddress = [208, 126, 79, 134, 8, 54, 113, 126, 203, 235, 49, 73, 152, 100,
          25, 48, 154, 46, 44, 168]
      ∧ r.Port = "" ∧ r.Channel = "" ∧ r.FinalDestination = ""
      ∧ AccAddressString "cosmos" r.ReceiverAddress
          = some (toLower "cosmos16plylpsgxechajltx9yeseqexzdzut9g8vla4k")
      ∧ (AccAddressString "cosmos" r.ReceiverAddress
            = some "cosmos16plylpsgxechajltx9yeseqexzdzut9g8vla4k"
          ↔ ∀ c ∈ "cosmos16plylpsgxechajltx9yeseqexzdzut9g8vla4k".data, c.isUpper = false) :=
  C9_parse_plain_address "cosmos" (fun _ => "decoding bech32 failed")
    "cosmos16plylpsgxechajltx9yeseqexzdzut9g8vla4k"
    [208, 126, 79, 134, 8, 54, 113, 126, 203, 235, 49, 73, 152, 100, 25, 48, 154, 46, 44, 168]
    (by decide) (by decide) (by decide) (by decide)

end PFM
